import Mathlib

/-!
# xun: clause builder (`dbal/query/where.go`) and Postgres DDL rendering
(`grammar/postgres/builder.go`)

A shallow embedding of the two source files and theorems about them.

Conventions of the embedding.

* A Go `interface{}` argument is a `Value`: the dynamic types the clause builder
  inspects by reflection each have a constructor.  Typed nil pointers and nil
  slices are not represented; `Value.nil` is the untyped nil interface.
* A grouping callback `func(qb Query)` is a `Value.closure id`; what it does to
  the builder it is handed is given by the environment (`Env.run id`).  A callback
  acts only on the builder it receives.
* Builder methods mutate the receiver in place and may panic.  A method is a
  function from the receiver to an `Outcome`: the receiver after the call,
  together with the panic message when the call did not return normally.
  Mutations made before a panic stay in the receiver, as in Go.
-/

set_option autoImplicit false

namespace Xun

/-! ## Data model (`dbal`) -/

namespace dbal

mutual
/-- Dynamic values handed to the clause builder as `interface{}`. -/
inductive Value where
  /-- The untyped nil interface. -/
  | nil : Value
  /-- A Go `string`. -/
  | str (s : String) : Value
  /-- A Go `int`. -/
  | int (n : Int) : Value
  /-- A Go `bool`. -/
  | bool (b : Bool) : Value
  /-- A Go `[]interface{}`. -/
  | list (xs : List Value) : Value
  /-- A Go `[]string`. -/
  | strs (xs : List String) : Value
  /-- A Go `[][]interface{}`. -/
  | rows (xs : List (List Value)) : Value
  /-- A Go `func(qb Query)`, named by an identifier. -/
  | closure (id : Nat) : Value
  /-- A Go `*Builder`, given by the query it owns. -/
  | builder (q : Query) : Value
  /-- A `dbal.Expression` made by `dbal.Raw`. -/
  | raw (sql : String) : Value
/-- Modelled from the spec: the declaration of `dbal.Where`, the clause node, is not
among the source files; its fields are those `where.go` assigns (`Type`, `Column`,
`Operator`, `Boolean`, `Value`, `Offset`, `Query`). A field a construction site
leaves out holds the Go zero value (`""`, `Value.nil`, `0`, `none`). -/
inductive Where where
  | mk (Typ : String) (Column : Value) (Operator : String) (Boolean : String)
      (Val : Value) (Offset : Int) (Sub : Option Query) : Where
/-- Modelled from the spec: the declaration of `dbal.Query` is not among the source
files; the fields `where.go` uses are the target table `From`, the clause tree
`Wheres` and the binding tracker `Bindings`, a "mapping from clause category name
to an ordered sequence of bound values". -/
inductive Query where
  | mk (From : String) (Wheres : List Where) (Bindings : List (String × List Value)) : Query
end

/-- Field `Type` of a clause node. -/
def Where.Typ : Where → String
  | .mk t _ _ _ _ _ _ => t

/-- Field `Column` of a clause node. -/
def Where.Column : Where → Value
  | .mk _ c _ _ _ _ _ => c

/-- Field `Operator` of a clause node. -/
def Where.Operator : Where → String
  | .mk _ _ o _ _ _ _ => o

/-- Field `Boolean` of a clause node: the connective. -/
def Where.Boolean : Where → String
  | .mk _ _ _ b _ _ _ => b

/-- Field `Value` of a clause node. -/
def Where.Value : Where → Value
  | .mk _ _ _ _ v _ _ => v

/-- Field `Offset` of a clause node. -/
def Where.Offset : Where → Int
  | .mk _ _ _ _ _ o _ => o

/-- Field `Query` of a clause node: the child query of a nested or sub node. -/
def Where.Query : Where → Option Query
  | .mk _ _ _ _ _ _ q => q

/-- Field `From` of a query. -/
def Query.From : Query → String
  | .mk f _ _ => f

/-- Field `Wheres` of a query: the clause tree. -/
def Query.Wheres : Query → List Where
  | .mk _ w _ => w

/-- Field `Bindings` of a query: category name to bound values. -/
def Query.Bindings : Query → List (String × List Value)
  | .mk _ _ b => b

end dbal

open dbal

/-! ## The Go standard library functions the two files call -/

namespace strings

/-- Go `strings.ToLower`, on ASCII letters: a letter outside ASCII is left as it
is, where Go lower-cases every Unicode letter. The texts lower-cased here are the
connectives `and`, `or` and the enum type name. -/
def ToLower (s : String) : String :=
  String.mk (s.toList.map Char.toLower)

/-- Whether `p` occurs in `l` as a contiguous run. -/
def containsChars (p : List Char) : List Char → Bool
  | [] => p.isEmpty
  | c :: cs => p.isPrefixOf (c :: cs) || containsChars p cs

/-- Go `strings.Contains`. -/
def Contains (s substr : String) : Bool :=
  containsChars substr.toList s.toList

/-- Go `strings.Trim`: `s` without the leading and trailing characters that occur
in `cutset`. -/
def Trim (s cutset : String) : String :=
  String.mk
    (((s.toList.dropWhile (fun c => cutset.toList.contains c)).reverse.dropWhile
      (fun c => cutset.toList.contains c)).reverse)

/-- Go `strings.Join`. -/
def Join (elems : List String) (sep : String) : String :=
  sep.intercalate elems

end strings

namespace fmt

/-- The verb `%d` applied to an int. -/
def d (n : Int) : String :=
  toString n

/-- Replace the first `%d` of a format by `arg`. -/
def substD (arg : List Char) : List Char → List Char
  | '%' :: 'd' :: rest => arg ++ rest
  | c :: rest => c :: substD arg rest
  | [] => []

/-- Go `fmt.Sprintf(format, n)` for a format whose only verb is one `%d`, as the
temporal type names `TIMESTAMP(%d)` and `TIME(%d)` are; `%%` and further verbs are
outside this model. -/
def SprintfD (format : String) (n : Int) : String :=
  String.mk (substD (d n).toList format.toList)

end fmt

/-! ## Helpers of package `utils` and of `dbal.Query` that are not in the two files -/

namespace utils

mutual
/-- Modelled from the spec: `utils.Flatten` is not among the source files. The
binding tracker stores values "flattened (nested lists collapsed)": a sequence
flattens to the concatenation of the flattenings of its elements, any other value
to itself alone. -/
def Flatten : Value → List Value
  | .list xs => FlattenAll xs
  | .strs xs => xs.map Value.str
  | .rows xs => FlattenRows xs
  | v => [v]
/-- Flattening of the elements of a `[]interface{}`. -/
def FlattenAll : List Value → List Value
  | [] => []
  | x :: xs => Flatten x ++ FlattenAll xs
/-- Flattening of the rows of a `[][]interface{}`. -/
def FlattenRows : List (List Value) → List Value
  | [] => []
  | r :: rs => FlattenAll r ++ FlattenRows rs
end

/-- Modelled from the spec: `utils.IsNil` is not among the source files. It
recognises "the null sentinel". -/
def IsNil : Value → Bool
  | .nil => true
  | _ => false

/-- Modelled from the spec: `utils.StringHave` is not among the source files;
membership of a string in a list of strings. -/
def StringHave (xs : List String) (s : String) : Bool :=
  xs.contains s

/-- Modelled from the spec: `utils.StringVal` is not among the source files; the
string behind a `*string`, empty when the pointer is nil. -/
def StringVal (p : Option String) : String :=
  p.getD ""

/-- Modelled from the spec: `utils.IntVal` is not among the source files; the int
behind a `*int`, the given default (0 when none is passed) when the pointer is
nil. -/
def IntVal (p : Option Int) (dflt : Int) : Int :=
  p.getD dflt

end utils

namespace dbal

/-- Values bound under category `typ`; an absent category reads as empty, like a
Go map read. -/
def bindingsAt (typ : String) : List (String × List Value) → List Value
  | [] => []
  | (k, vs) :: rest => if k = typ then vs else bindingsAt typ rest

/-- Append `vs` to category `typ`, keeping the order of what is already there. -/
def appendAt (typ : String) (vs : List Value) :
    List (String × List Value) → List (String × List Value)
  | [] => [(typ, vs)]
  | (k, ws) :: rest =>
    if k = typ then (k, ws ++ vs) :: rest else (k, ws) :: appendAt typ vs rest

/-- Modelled from the spec: `Query.AddBinding` is not among the source files. The
binding tracker supports "append", and "values are flattened (nested lists
collapsed) before storage". -/
def Query.AddBinding (q : Query) (typ : String) (value : Value) : Query :=
  .mk q.From q.Wheres (appendAt typ (utils.Flatten value) q.Bindings)

/-- The Go statement `query.Wheres = append(query.Wheres, node)`. -/
def Query.appendWhere (q : Query) (node : Where) : Query :=
  .mk q.From (q.Wheres ++ [node]) q.Bindings

/-- Modelled from the spec: `utils.Flatten` applied to the whole binding tracker
(a map), the "flatten-to-positional-list" of all categories. -/
def FlattenBindings (m : List (String × List Value)) : List Value :=
  m.flatMap (fun kv => utils.FlattenAll kv.2)

end dbal

/-! ## The clause builder (`dbal/query/where.go`) -/

namespace query

/-- Modelled from the spec: the declaration of `Builder` is not among the source
files; the part of its state `where.go` touches is the query it owns. -/
structure Builder where
  /-- The query under construction. -/
  Query : dbal.Query

/-- Result of a builder method: the receiver after the call and, when the call
panicked, the panic message. -/
structure Outcome where
  /-- The receiver after the call. -/
  builder : Builder
  /-- The panic message when the call did not return normally. -/
  panicked : Option String

/-- What the clause builder consumes from outside: the behaviour of each callback
and the statement compiler of the grammar. -/
structure Env where
  /-- Running the callback named `id` on the builder it is handed. -/
  run : Nat → Builder → Outcome
  /-- The external `Grammar.CompileSelectOffset(query, &offset)`. -/
  CompileSelectOffset : dbal.Query → Int → String

/-- The `reflect.Kind`s the clause builder distinguishes. -/
inductive Kind where
  | Bool | Int | String | Slice | Func | Ptr | Struct
  deriving DecidableEq, Repr

/-- The panic of calling a method on the nil `reflect.Type` returned by
`reflect.TypeOf(nil)`. -/
def nilTypePanic : String :=
  "runtime error: invalid memory address or nil pointer dereference"

/-- The Go expression `reflect.TypeOf(v).Kind()`; it panics on the nil interface. -/
def kindOf : Value → Except String Kind
  | .nil => .error nilTypePanic
  | .str _ => .ok .String
  | .int _ => .ok .Int
  | .bool _ => .ok .Bool
  | .list _ => .ok .Slice
  | .strs _ => .ok .Slice
  | .rows _ => .ok .Slice
  | .closure _ => .ok .Func
  | .builder _ => .ok .Ptr
  | .raw _ => .ok .Struct

/-- The string at `v` when `reflect.TypeOf(v).Kind() == reflect.String`, else the
value `dflt` already assigned; panics on nil. -/
def stringOr (v : Value) (dflt : String) : Except String String :=
  match v with
  | .nil => .error nilTypePanic
  | .str s => .ok s
  | _ => .ok dflt

/-- The int at `v` when `reflect.TypeOf(v).Kind() == reflect.Int`, else the value
`dflt` already assigned; panics on nil. -/
def intOr (v : Value) (dflt : Int) : Except String Int :=
  match v with
  | .nil => .error nilTypePanic
  | .int n => .ok n
  | _ => .ok dflt

/-- Go `wherePrepare`: the operator, value, boolean and offset of a where clause. -/
def wherePrepare (args : List Value) : Except String (String × Value × String × Int) :=
  -- Where("score", 5)
  if args.length = 1 then
    .ok ("=", args.getD 0 .nil, "and", 1)
  else do
    -- Where("vote", ">", 5)
    let operator ← if args.length ≥ 1 then stringOr (args.getD 0 .nil) "=" else pure "="
    let value := if args.length ≥ 2 then args.getD 1 .nil else .nil
    -- Where("vote", ">", 5, "and")
    let boolean ← if args.length ≥ 3 then stringOr (args.getD 2 .nil) "and" else pure "and"
    -- Where("vote", ">", 5, "and", 5)
    let offset ← if args.length = 4 then intOr (args.getD 3 .nil) 1 else pure 1
    pure (operator, value, boolean, offset)

/-- Go `isClosure`: a non-nil func with one interface parameter and no result. -/
def isClosure : Value → Bool
  | .closure _ => true
  | _ => false

/-- Go `isOperator`: a string that, lower-cased, is `and` or `or`. -/
def isOperator : Value → Bool
  | .str s => utils.StringHave ["and", "or"] (strings.ToLower s)
  | _ => false

/-- Go `isQueryable`: a query builder instance or a closure. Called on non-nil
values only. -/
def isQueryable : Value → Bool
  | .closure _ => true
  | .builder _ => true
  | _ => false

/-- Go `flattenValue`: element 0 of the flattened value; indexing an empty slice
panics. -/
def flattenValue (value : Value) : Except String Value :=
  match utils.Flatten value with
  | [] => .error "runtime error: index out of range [0] with length 0"
  | v :: _ => .ok v

/-- Modelled from the spec: `Builder.new` is not among the source files. A fresh
builder "starts with an empty Clause Tree and Binding Tracker" and has its own
target table. -/
def Builder.new (_b : Builder) : Builder :=
  ⟨.mk "" [] []⟩

/-- Modelled from the spec: `Builder.GetBindings` is not among the source files;
"the sub-query's own flattened binding list". -/
def Builder.GetBindings (b : Builder) : List Value :=
  dbal.FlattenBindings b.Query.Bindings

/-- Go `forSubQuery`: a new query instance for a sub-query. -/
def Builder.forSubQuery (b : Builder) : Builder :=
  b.new

/-- Go `forNestedWhere`: a new query instance that takes over `From`. -/
def Builder.forNestedWhere (b : Builder) : Builder :=
  ⟨.mk b.Query.From b.new.Query.Wheres b.new.Query.Bindings⟩

/-- Go `prependDatabaseNameIfCrossDatabaseQuery`: returns the sub-query as is. -/
def Builder.prependDatabaseNameIfCrossDatabaseQuery (_b : Builder) (subquery : Builder) :
    Builder :=
  subquery

/-- Go `addNestedWhereQuery`: add another query as a nested where, unless it has
no clause. -/
def Builder.addNestedWhereQuery (b : Builder) (q : dbal.Query) (boolean : String) : Builder :=
  if q.Wheres.length > 0 then
    ⟨(b.Query.appendWhere (.mk "nested" .nil "" boolean .nil 0 (some q))).AddBinding "where"
      (.list (dbal.bindingsAt "where" q.Bindings))⟩
  else
    b

/-- Go `whereNested`: run the callback on a nested-where builder and add its query. -/
def Builder.whereNested (b : Builder) (callback : Builder → Outcome) (boolean : String) :
    Outcome :=
  match callback b.forNestedWhere with
  | ⟨new, none⟩ => ⟨b.addNestedWhereQuery new.Query boolean, none⟩
  | ⟨_, some e⟩ => ⟨b, some e⟩

/-- Go `whereSub`: add a full sub-select to the query. -/
def Builder.whereSub (b : Builder) (column : String) (operator : String)
    (callback : Builder → Outcome) (boolean : String) : Outcome :=
  match callback b.forSubQuery with
  | ⟨new, none⟩ =>
    let node := Where.mk "sub" (.str column) operator boolean .nil 0 (some new.Query)
    ⟨⟨(b.Query.appendWhere node).AddBinding "where"
      (.list (dbal.bindingsAt "where" new.Query.Bindings))⟩, none⟩
  | ⟨_, some e⟩ => ⟨b, some e⟩

/-- Go `parseSub`: the sub-query as SQL, its bindings and the where offset. -/
def Builder.parseSub (env : Env) (b : Builder) (subquery : Value) :
    Except String (String × List Value × Int) :=
  match subquery with
  | .builder q =>
    let qb := b.prependDatabaseNameIfCrossDatabaseQuery ⟨q⟩
    let offset : Int := (dbal.FlattenBindings b.Query.Bindings).length
    let bindings := qb.GetBindings
    let whereOffset : Int := offset + (utils.Flatten (.list bindings)).length
    .ok (env.CompileSelectOffset qb.Query offset, bindings, whereOffset)
  | .raw sql => .ok (sql, [], 0)
  | .str s => .ok (s, [], 0)
  | _ => .error "a subquery must be a query builder instance, a Closure, or a string"

/-- Go `createSub`: run a closure on a sub-query builder, then parse the result. -/
def Builder.createSub (env : Env) (b : Builder) (subquery : Value) :
    Except String (String × List Value × Int) :=
  match subquery with
  | .closure id =>
    match env.run id b.forSubQuery with
    | ⟨qb, none⟩ => b.parseSub env (.builder qb.Query)
    | ⟨_, some e⟩ => .error e
  | _ => b.parseSub env subquery

/-- Go `WhereNull`: add a "where null" clause, one node per column. -/
def Builder.WhereNull (b : Builder) (column : Value) (args : List Value) : Outcome :=
  match wherePrepare args with
  | .error e => ⟨b, some e⟩
  | .ok (boolean, not, _, _) =>
    let typ :=
      match not with
      | .bool true => "notnull"
      | _ => "null"
    -- elements of a []interface{} have kind Interface, never String
    let columns : List String :=
      match column with
      | .strs xs => xs
      | .str s => [s]
      | _ => []
    ⟨⟨.mk b.Query.From
        (b.Query.Wheres ++ columns.map (fun col => Where.mk typ (.str col) "" boolean .nil 0 none))
        b.Query.Bindings⟩, none⟩

/-- Go `OrWhereNull`. -/
def Builder.OrWhereNull (b : Builder) (column : Value) : Outcome :=
  b.WhereNull column [.str "or"]

/-- Go `whereNotNull`. -/
def Builder.whereNotNull (b : Builder) (column : Value) (args : List Value) : Outcome :=
  match wherePrepare args with
  | .error e => ⟨b, some e⟩
  | .ok (boolean, _, _, _) => b.WhereNull column [.str boolean, .bool true]

/-- Go `OrWhereNotNull`. -/
def Builder.OrWhereNotNull (b : Builder) (column : Value) : Outcome :=
  b.WhereNull column [.str "or", .bool true]

/-- The loop of the closure built by `addArrayOfWheres`: one `Where` per tuple that
has a string first element and a further element. -/
def arrayOfWheresLoop (self : Builder → Value → List Value → Outcome) :
    Builder → List (List Value) → Outcome
  | qb, [] => ⟨qb, none⟩
  | qb, args :: rest =>
    if args.length > 1 then
      match kindOf (args.getD 0 .nil) with
      | .error e => ⟨qb, some e⟩
      | .ok .String =>
        match wherePrepare (args.drop 1) with
        | .error e => ⟨qb, some e⟩
        | .ok (operator, value, boolean, offset) =>
          match self qb (args.getD 0 .nil) [.str operator, value, .str boolean, .int offset] with
          | ⟨qb, none⟩ => arrayOfWheresLoop self qb rest
          | ⟨qb, some e⟩ => ⟨qb, some e⟩
      | .ok _ => arrayOfWheresLoop self qb rest
    else
      arrayOfWheresLoop self qb rest

/-- Go `addArrayOfWheres`: an array of where clauses as one nested group. `self` is
the method `Where` the closure calls on the nested builder. -/
def Builder.addArrayOfWheres (self : Builder → Value → List Value → Outcome) (b : Builder)
    (inputColumns : Value) (boolean : String) : Outcome :=
  match inputColumns with
  | .rows columns => b.whereNested (fun qb => arrayOfWheresLoop self qb columns) boolean
  | _ => ⟨b, none⟩

/-- The body of Go `Where`; `self` is the method itself, for the two places where
`Where` calls `Where`. -/
def Builder.WhereBody (env : Env) (self : Builder → Value → List Value → Outcome)
    (b : Builder) (column : Value) (args : List Value) : Outcome :=
  match kindOf column with
  | .error e => ⟨b, some e⟩
  | .ok columnKind =>
  match wherePrepare args with
  | .error e => ⟨b, some e⟩
  | .ok (operator, value, boolean, offset) =>
  if columnKind = Kind.Slice then
    b.addArrayOfWheres self column boolean
  else if isClosure column && (args.length == 0 ||
      (decide (args.length ≥ 1) && isOperator (args.getD 0 .nil))) then
    let boolean :=
      match args with
      | [.str s] => s
      | _ => "and"
    match column with
    | .closure id => b.whereNested (env.run id) boolean
    | _ => ⟨b, none⟩
  else if isQueryable column && decide (args.length ≥ 1) then
    match b.createSub env column with
    | .error e => ⟨b, some e⟩
    | .ok (sub, bindings, whereOffset) =>
      self ⟨b.Query.AddBinding "where" (.list bindings)⟩
        (.raw ("(" ++ sub ++ ")")) [.str operator, value, .str boolean, .int whereOffset]
  else
    match column, value with
    | .str col, .closure id => b.whereSub col operator (env.run id) boolean
    | _, _ =>
    if utils.IsNil value then
      b.WhereNull column [.str boolean, .bool (operator != "=")]
    else
      let queryType := "basic"
      let b : Builder :=
        ⟨b.Query.appendWhere (.mk queryType column operator boolean value offset none)⟩
      match flattenValue value with
      | .error e => ⟨b, some e⟩
      | .ok v => ⟨⟨b.Query.AddBinding "where" v⟩, none⟩

/-- Go `Where`, with a bound on the depth of its calls to itself. -/
def Builder.WhereFuel (env : Env) : Nat → Builder → Value → List Value → Outcome
  | 0 => fun b _ _ => ⟨b, some "call depth exceeded"⟩
  | fuel + 1 => Builder.WhereBody env (Builder.WhereFuel env fuel)

/-- Go `Where`: add a basic where clause to the query. `Where` calls itself at
most once inside a call (on a tuple of an array of wheres, or on the compiled
sub-query), so depth two is the whole function. -/
def Builder.Where (env : Env) (b : Builder) (column : Value) (args : List Value) : Outcome :=
  Builder.WhereFuel env 2 b column args

end query

/-! ## Predicates of the statements about the clause tree -/

namespace query

/-- A node that is a nested group carries a child query with at least one clause. -/
def NestedNonEmpty (node : Where) : Prop :=
  node.Typ = "nested" → ∃ q, node.Query = some q ∧ q.Wheres ≠ []

/-- The clause tree of the outcome is that of `b` followed by further nodes, and
each further node that is a nested group has a non-empty child. -/
def AppendsGood (b : Builder) (o : Outcome) : Prop :=
  ∃ extra, o.builder.Query.Wheres = b.Query.Wheres ++ extra ∧
    ∀ node ∈ extra, NestedNonEmpty node

end query

/-! ## Postgres schema rendering (`grammar/postgres/builder.go`) -/

namespace dbal

/-- Modelled from the spec: the declaration of `dbal.Column`, the column
descriptor, is not among the source files; its fields are those `builder.go`
reads. A Go pointer field is an `Option`; `Default` holds the text `%v` prints for
the default value. -/
structure Column where
  Name : String
  TableName : String
  Typ : String
  Length : Option Int
  Precision : Option Int
  Scale : Option Int
  DateTimePrecision : Option Int
  Nullable : Bool
  Default : Option String
  Comment : Option String
  Collation : Option String
  Extra : Option String
  Options : List String

/-- Modelled from the spec: the declaration of `dbal.Index`, the index descriptor,
is not among the source files; its fields are those `builder.go` reads. -/
structure Index where
  Name : String
  TableName : String
  Typ : String
  Columns : List Column
  Comment : Option String

end dbal

namespace grammar

/-- Modelled from the spec: the declaration of the `Postgres` grammar is not among
the source files; `builder.go` uses its rule tables and the quoter of the dialect,
which stay parameters. -/
structure Postgres where
  /-- The table `Types`: semantic type name to dialect type name. -/
  Types : String → Option String
  /-- The table `IndexTypes`: semantic index kind to dialect keyword. -/
  IndexTypes : String → Option String
  /-- The identifier quoter `Quoter.ID`. -/
  ID : String → String
  /-- The literal quoter `Quoter.VAL`. -/
  VAL : String → String

/-- The type text of a column: the type resolution and suffix rules that open Go
`SQLAddColumn`, before the "extra" override. -/
def Postgres.columnType (grammarSQL : Postgres) (column : dbal.Column) : String :=
  let typ := (grammarSQL.Types column.Typ).getD "VARCHAR"
  if column.Precision.isSome && column.Scale.isSome &&
      (typ == "NUMBERIC" || typ == "DECIMAL") then
    typ ++ "(" ++ fmt.d (utils.IntVal column.Precision 0) ++ "," ++
      fmt.d (utils.IntVal column.Scale 0) ++ ")"
  else if strings.Contains typ "TIMESTAMP(%d)" || strings.Contains typ "TIME(%d)" then
    let DateTimePrecision := utils.IntVal column.DateTimePrecision 0
    fmt.SprintfD typ DateTimePrecision
  else if typ == "BYTEA" then
    "BYTEA"
  else if typ == "ENUM" then
    strings.ToLower ("ENUM__" ++ strings.Join column.Options "_EOPT_")
  else if column.Length.isSome then
    typ ++ "(" ++ fmt.d (utils.IntVal column.Length 0) ++ ")"
  else
    typ

/-- The type text of a column after the "extra" override and the `IPADDRESS`
substitution of Go `SQLAddColumn`. -/
def Postgres.columnTypeFinal (grammarSQL : Postgres) (column : dbal.Column) : String :=
  let typ := grammarSQL.columnType column
  let typ :=
    if utils.StringVal column.Extra != "" then
      if typ == "BIGINT" then "BIGSERIAL"
      else if typ == "SMALLINT" then "SMALLSERIAL"
      else "SERIAL"
    else typ
  if typ == "IPADDRESS" then "integer" else typ

/-- Go `SQLAddColumn`: the add column sql for table create. -/
def Postgres.SQLAddColumn (grammarSQL : Postgres) (column : dbal.Column) : String :=
  let typ := grammarSQL.columnTypeFinal column
  let unsigned := ""
  let nullable := if column.Nullable then "NULL" else "NOT NULL"
  let defaultValue :=
    match column.Default with
    | some v => "DEFAULT " ++ v
    | none => ""
  let collation :=
    if utils.StringVal column.Collation != "" then
      "COLLATE " ++ utils.StringVal column.Collation
    else ""
  let extra := ""
  let nullable := if utils.StringVal column.Extra != "" then "" else nullable
  let defaultValue := if utils.StringVal column.Extra != "" then "" else defaultValue
  let sql := grammarSQL.ID column.Name ++ " " ++ typ ++ " " ++ unsigned ++ " " ++ nullable ++
    " " ++ defaultValue ++ " " ++ extra ++ " " ++ collation
  strings.Trim sql " "

/-- The seven segments Go `SQLAddColumn` hands to its format, in the order of the
format: identifier, type, unsigned, nullability, default, extra, collation. -/
def Postgres.columnSegments (grammarSQL : Postgres) (column : dbal.Column) : List String :=
  let nullable := if column.Nullable then "NULL" else "NOT NULL"
  let defaultValue :=
    match column.Default with
    | some v => "DEFAULT " ++ v
    | none => ""
  [grammarSQL.ID column.Name, grammarSQL.columnTypeFinal column, "",
    if utils.StringVal column.Extra != "" then "" else nullable,
    if utils.StringVal column.Extra != "" then "" else defaultValue, "",
    if utils.StringVal column.Collation != "" then
      "COLLATE " ++ utils.StringVal column.Collation
    else ""]

/-- Go `SQLAddComment`: the add comment sql for table create. -/
def Postgres.SQLAddComment (grammarSQL : Postgres) (column : dbal.Column) : String :=
  let comment :=
    if utils.StringVal column.Comment != "" then
      "COMMENT on column " ++ grammarSQL.ID column.TableName ++ "." ++
        grammarSQL.ID column.Name ++ " is " ++
        grammarSQL.VAL (utils.StringVal column.Comment) ++ ";"
    else ""
  if column.Typ == "ipAddress" then
    "COMMENT on column " ++ grammarSQL.ID column.TableName ++ "." ++
      grammarSQL.ID column.Name ++ " is " ++
      grammarSQL.VAL ("T:" ++ column.Typ ++ "|" ++ utils.StringVal column.Comment) ++ ";"
  else comment

/-- Go `SQLAddIndex`: the add index sql for table create. -/
def Postgres.SQLAddIndex (grammarSQL : Postgres) (index : dbal.Index) : String :=
  let typ := (grammarSQL.IndexTypes index.Typ).getD "KEY"
  let columns := index.Columns.map (fun column => grammarSQL.ID column.Name)
  let isJSON := index.Columns.any (fun column => column.Typ == "json" || column.Typ == "jsonb")
  if isJSON then
    ""
  else
    let comment :=
      match index.Comment with
      | some c => "COMMENT " ++ grammarSQL.VAL c
      | none => ""
    let name := grammarSQL.ID index.Name
    if typ == "PRIMARY KEY" then
      typ ++ " (" ++ strings.Join columns "," ++ ") " ++ comment
    else
      "CREATE " ++ typ ++ " " ++ name ++ " ON " ++ grammarSQL.ID index.TableName ++ " (" ++
        strings.Join columns "," ++ ")"

end grammar

/-! ## Reference definitions, following the words of the spec -/

namespace reference

/-- The words of a text: the maximal runs of characters other than the space, in
order. `acc` is the run being read, latest character first. -/
def wordsGo : List Char → List Char → List (List Char)
  | acc, [] => if acc = [] then [] else [acc.reverse]
  | acc, c :: cs =>
    if c = ' ' then
      if acc = [] then wordsGo [] cs else acc.reverse :: wordsGo [] cs
    else wordsGo (c :: acc) cs

/-- The words of a text. -/
def words (s : String) : List (List Char) :=
  wordsGo [] s.toList

/-- The spec's "trimming empty segments": the non-empty segments joined by single
spaces. -/
def joinNonEmpty (segments : List String) : String :=
  strings.Join (segments.filter (fun seg => seg != "")) " "

/-- The string `v` when `v` is a string, else `dflt`. -/
def stringElse (v : Value) (dflt : String) : String :=
  match v with
  | .str s => s
  | _ => dflt

/-- The integer `v` when `v` is an integer, else `dflt`. -/
def intElse (v : Value) (dflt : Int) : Int :=
  match v with
  | .int n => n
  | _ => dflt

/-- The positional reference definition of `wherePrepare`, in the words of the
spec: no argument gives `=`, an absent value, `and`, 1; one argument is the value;
with two or more the operator is the first argument when it is a string, the value
is the second, the connective is the third when present and a string, and the
offset is the fourth when exactly four arguments are given and it is an integer. -/
def wherePrepareRef (args : List Value) : String × Value × String × Int :=
  match args with
  | [] => ("=", .nil, "and", 1)
  | [v] => ("=", v, "and", 1)
  | a :: v :: rest =>
    let boolean :=
      match rest with
      | c :: _ => stringElse c "and"
      | [] => "and"
    let offset :=
      match rest with
      | [_, o] => intElse o 1
      | _ => 1
    (stringElse a "=", v, boolean, offset)

end reference

/-! ## Predicates of the statements about appending -/

namespace query

/-- The `where` bindings of the outcome are those of `b` followed by further
values, each of them a scalar. -/
def BindsMore (b : Builder) (o : Outcome) : Prop :=
  ∃ more, bindingsAt "where" o.builder.Query.Bindings =
      bindingsAt "where" b.Query.Bindings ++ more ∧
    ∀ x ∈ more, utils.Flatten x = [x]

/-- The operation only appends: the clause list of `b` is a prefix of the clause
list of the outcome, and the `where` bindings of `b` are a prefix of the `where`
bindings of the outcome. -/
def OnlyAppends (b : Builder) (o : Outcome) : Prop :=
  b.Query.Wheres <+: o.builder.Query.Wheres ∧
    bindingsAt "where" b.Query.Bindings <+: bindingsAt "where" o.builder.Query.Bindings

end query

/-! ## The array of wheres and the binding invariant: reference and predicates -/

namespace reference

open query

/-- A tuple contributes a clause when it has a string first element and at least
one further element. -/
def tupleContributes (args : List Value) : Bool :=
  decide (args.length > 1) &&
    (match args.getD 0 .nil with
    | .str _ => true
    | _ => false)

/-- Calling `where` once for each of the given tuples, in their order, on the first
element as column with the further elements as its arguments; a panic ends the
sequence. -/
def whereEachTuple (env : Env) : Builder → List (List Value) → Outcome
  | qb, [] => ⟨qb, none⟩
  | qb, args :: rest =>
    match Builder.Where env qb (args.getD 0 .nil) (args.drop 1) with
    | ⟨qb, none⟩ => whereEachTuple env qb rest
    | ⟨qb, some e⟩ => ⟨qb, some e⟩

end reference

namespace query

mutual
/-- The basic nodes of a clause list, left to right, those of nested and sub
children included at the place of their parent node. -/
def basicNodesOfList : List Where → List Where
  | [] => []
  | node :: rest => basicNodesOfNode node ++ basicNodesOfList rest
/-- The basic nodes of one node. -/
def basicNodesOfNode : Where → List Where
  | .mk t col op c v off q =>
    if t = "basic" then [.mk t col op c v off q]
    else if t = "nested" ∨ t = "sub" then basicNodesOfChild q
    else []
/-- The basic nodes of the child query of a node, if it has one. -/
def basicNodesOfChild : Option dbal.Query → List Where
  | none => []
  | some q => basicNodesOfQuery q
/-- The basic nodes of a query. -/
def basicNodesOfQuery : dbal.Query → List Where
  | .mk _ ws _ => basicNodesOfList ws
end

/-- The value a basic node binds: the first element of its flattened value, when
there is one. -/
def boundOf (node : Where) : List Value :=
  (utils.Flatten node.Value).take 1

/-- The `where` bindings of the query are the values bound by the basic nodes of
its tree, one after the other in the order of the nodes. -/
def Balanced (q : dbal.Query) : Prop :=
  bindingsAt "where" q.Bindings = (basicNodesOfList q.Wheres).flatMap boundOf

/-- The builders reached from an empty builder by `Where` with a string column,
by `Where` with a grouping callback alone or followed by a connective, and by
`Where` with an array of wheres. -/
inductive Reachable (env : Env) : Builder → Prop
  | empty (table : String) : Reachable env ⟨.mk table [] []⟩
  | whereColumn (b : Builder) (col : String) (args : List Value) :
      Reachable env b → Reachable env (Builder.Where env b (.str col) args).builder
  | whereGroup (b : Builder) (id : Nat) (args : List Value) :
      Reachable env b → (args = [] ∨ isOperator (args.getD 0 .nil) = true) →
      Reachable env (Builder.Where env b (.closure id) args).builder
  | whereArray (b : Builder) (rows : List (List Value)) (args : List Value) :
      Reachable env b → Reachable env (Builder.Where env b (.rows rows) args).builder

end query

/-! ## Concrete inputs -/

namespace examples

open query grammar

/-- A builder on table `users` with no clause and no binding. -/
def emptyBuilder : Builder :=
  ⟨.mk "users" [] []⟩

/-- An environment without callbacks of interest: every callback leaves the builder
it receives as it is; a compiled sub-query prints as `select`. -/
def baseEnv : Env :=
  ⟨fun _ qb => ⟨qb, none⟩, fun _ _ => "select"⟩

/-- The callback `func(qb Query) { qb.Where("name", "Ken") }`. -/
def whereNameKen (qb : Builder) : Outcome :=
  Builder.Where baseEnv qb (.str "name") [.str "Ken"]

/-- The callback `func(qb Query) { qb.Where("score", ">", 5).Where("vote", 10) }`. -/
def whereScoreVote (qb : Builder) : Outcome :=
  match Builder.Where baseEnv qb (.str "score") [.str ">", .int 5] with
  | ⟨qb, none⟩ => Builder.Where baseEnv qb (.str "vote") [.int 10]
  | o => o

/-- Callback 0 adds nothing, callback 1 is `whereNameKen`, callback 2 is
`whereScoreVote`. -/
def env : Env :=
  ⟨fun id qb =>
      match id with
      | 1 => whereNameKen qb
      | 2 => whereScoreVote qb
      | _ => ⟨qb, none⟩,
    fun _ _ => "select"⟩

/-- The builder after `Where("id", 7)` on the empty builder: one prior binding. -/
def oneBinding : Builder :=
  (Builder.Where baseEnv emptyBuilder (.str "id") [.int 7]).builder

/-- A Postgres grammar: `decimal` is `NUMERIC`, `bigInteger` is `BIGINT`, `string`
is `VARCHAR`; identifiers are quoted with double quotes, literals with single
quotes. -/
def postgres : Postgres :=
  { Types := fun t =>
      if t = "decimal" then some "NUMERIC"
      else if t = "bigInteger" then some "BIGINT"
      else if t = "string" then some "VARCHAR"
      else none
    IndexTypes := fun t =>
      if t = "unique" then some "UNIQUE INDEX"
      else if t = "index" then some "INDEX"
      else if t = "primary" then some "PRIMARY KEY"
      else none
    ID := fun name => "\"" ++ name ++ "\""
    VAL := fun v => "'" ++ v ++ "'" }

/-- The column `price`: `decimal` with precision 10 and scale 2, not nullable. -/
def price : dbal.Column :=
  { Name := "price", TableName := "orders", Typ := "decimal", Length := none,
    Precision := some 10, Scale := some 2, DateTimePrecision := none, Nullable := false,
    Default := none, Comment := none, Collation := none, Extra := none, Options := [] }

/-- The column `id`: `bigInteger` with length 20, auto-increment, nullable, with a
default. -/
def idWithLength : dbal.Column :=
  { Name := "id", TableName := "orders", Typ := "bigInteger", Length := some 20,
    Precision := none, Scale := none, DateTimePrecision := none, Nullable := true,
    Default := some "0", Comment := none, Collation := none, Extra := some "AutoIncrement",
    Options := [] }

/-- The column `payload` of type `json`. -/
def payload : dbal.Column :=
  { Name := "payload", TableName := "orders", Typ := "json", Length := none,
    Precision := none, Scale := none, DateTimePrecision := none, Nullable := true,
    Default := none, Comment := none, Collation := none, Extra := none, Options := [] }

/-- The column `ip` of type `ipAddress`, with the comment `client`. -/
def ip : dbal.Column :=
  { Name := "ip", TableName := "orders", Typ := "ipAddress", Length := none,
    Precision := none, Scale := none, DateTimePrecision := none, Nullable := true,
    Default := none, Comment := some "client", Collation := none, Extra := none,
    Options := [] }

/-- The unique index `orders_price` over the column `price`. -/
def priceIndex : dbal.Index :=
  { Name := "orders_price", TableName := "orders", Typ := "unique", Columns := [price],
    Comment := none }

/-- The same index definition over the column `payload` of type `json`. -/
def payloadIndex : dbal.Index :=
  { Name := "orders_price", TableName := "orders", Typ := "unique", Columns := [payload],
    Comment := none }

/-- The same index definition of kind `primary`. -/
def pricePrimary : dbal.Index :=
  { Name := "orders_price", TableName := "orders", Typ := "primary", Columns := [price],
    Comment := none }

/-- The builder after `Where("id", 7)`, the group `whereNameKen` and an array of
two wheres passed with the connective `or` as third trailing argument. -/
def tree : Builder :=
  (Builder.Where env (Builder.Where env oneBinding (.closure 1) []).builder
    (.rows [[.str "score", .str ">", .int 5], [.str "vote", .int 10]])
    [.str "=", .int 0, .str "or"]).builder

/-- An array of wheres whose first tuple has a nil first element. -/
def nilFirstRows : List (List Value) :=
  [[.nil, .int 5], [.str "vote", .int 10]]

end examples

/-! ## Lemmas on the data model -/

namespace dbal

@[simp] theorem Where.Typ_mk (t : String) (col : dbal.Value) (o c : String) (v : dbal.Value)
    (off : Int) (q : Option dbal.Query) : (Where.mk t col o c v off q).Typ = t := rfl

@[simp] theorem Where.Query_mk (t : String) (col : dbal.Value) (o c : String) (v : dbal.Value)
    (off : Int) (q : Option dbal.Query) : (Where.mk t col o c v off q).Query = q := rfl

@[simp] theorem Query.From_mk (f : String) (w : List Where) (m : List (String × List Value)) :
    (Query.mk f w m).From = f := rfl

@[simp] theorem Query.Wheres_mk (f : String) (w : List Where) (m : List (String × List Value)) :
    (Query.mk f w m).Wheres = w := rfl

@[simp] theorem Query.Bindings_mk (f : String) (w : List Where)
    (m : List (String × List Value)) : (Query.mk f w m).Bindings = m := rfl

@[simp] theorem Query.Wheres_AddBinding (q : Query) (typ : String) (v : Value) :
    (q.AddBinding typ v).Wheres = q.Wheres := rfl

@[simp] theorem Query.From_AddBinding (q : Query) (typ : String) (v : Value) :
    (q.AddBinding typ v).From = q.From := rfl

@[simp] theorem Query.Wheres_appendWhere (q : Query) (node : Where) :
    (q.appendWhere node).Wheres = q.Wheres ++ [node] := rfl

@[simp] theorem Query.Bindings_appendWhere (q : Query) (node : Where) :
    (q.appendWhere node).Bindings = q.Bindings := rfl

@[simp] theorem Query.From_appendWhere (q : Query) (node : Where) :
    (q.appendWhere node).From = q.From := rfl

theorem bindingsAt_appendAt (typ : String) (vs : List Value) (m : List (String × List Value)) :
    bindingsAt typ (appendAt typ vs m) = bindingsAt typ m ++ vs := by
  induction m with
  | nil => simp [appendAt, bindingsAt]
  | cons kv rest ih =>
    obtain ⟨k, ws⟩ := kv
    by_cases h : k = typ
    · simp [appendAt, bindingsAt, h]
    · simp [appendAt, bindingsAt, h, ih]

/-- Adding a binding under `where` appends the flattened value to that category. -/
theorem Query.where_AddBinding (q : Query) (v : Value) :
    bindingsAt "where" (q.AddBinding "where" v).Bindings =
      bindingsAt "where" q.Bindings ++ utils.Flatten v := by
  simp [Query.AddBinding, bindingsAt_appendAt]

end dbal

namespace utils

mutual
/-- Every element of a flattened value is a scalar: it flattens to itself. -/
theorem Flatten_flat : ∀ (v x : Value), x ∈ Flatten v → Flatten x = [x]
  | .list xs, x, h => FlattenAll_flat xs x (by simpa [Flatten] using h)
  | .strs xs, x, h => by
    simp only [Flatten, List.mem_map] at h
    obtain ⟨s, _, rfl⟩ := h
    rfl
  | .rows xs, x, h => FlattenRows_flat xs x (by simpa [Flatten] using h)
  | .nil, x, h => by simp [Flatten] at h; subst h; rfl
  | .str _, x, h => by simp [Flatten] at h; subst h; rfl
  | .int _, x, h => by simp [Flatten] at h; subst h; rfl
  | .bool _, x, h => by simp [Flatten] at h; subst h; rfl
  | .closure _, x, h => by simp [Flatten] at h; subst h; rfl
  | .builder _, x, h => by simp [Flatten] at h; subst h; rfl
  | .raw _, x, h => by simp [Flatten] at h; subst h; rfl
/-- Elements of a flattened `[]interface{}` are scalars. -/
theorem FlattenAll_flat : ∀ (xs : List Value) (x : Value), x ∈ FlattenAll xs → Flatten x = [x]
  | [], x, h => by simp [FlattenAll] at h
  | y :: ys, x, h => by
    simp only [FlattenAll, List.mem_append] at h
    rcases h with h | h
    · exact Flatten_flat y x h
    · exact FlattenAll_flat ys x h
/-- Elements of a flattened `[][]interface{}` are scalars. -/
theorem FlattenRows_flat : ∀ (rs : List (List Value)) (x : Value),
    x ∈ FlattenRows rs → Flatten x = [x]
  | [], x, h => by simp [FlattenRows] at h
  | r :: rs, x, h => by
    simp only [FlattenRows, List.mem_append] at h
    rcases h with h | h
    · exact FlattenAll_flat r x h
    · exact FlattenRows_flat rs x h
end

/-- A list of scalars flattens to itself. -/
theorem FlattenAll_of_flat (xs : List Value) (h : ∀ x ∈ xs, Flatten x = [x]) :
    FlattenAll xs = xs := by
  induction xs with
  | nil => rfl
  | cons y ys ih =>
    simp only [FlattenAll]
    rw [h y (List.mem_cons_self _ _), ih (fun x hx => h x (List.mem_cons_of_mem _ hx))]
    rfl

/-- Flattening twice is flattening once. -/
theorem FlattenAll_Flatten (v : Value) : FlattenAll (Flatten v) = Flatten v :=
  FlattenAll_of_flat _ (Flatten_flat v)

end utils

namespace dbal

/-- The flattened binding tracker is a list of scalars. -/
theorem FlattenAll_FlattenBindings (m : List (String × List Value)) :
    utils.FlattenAll (FlattenBindings m) = FlattenBindings m := by
  apply utils.FlattenAll_of_flat
  intro x hx
  simp only [FlattenBindings, List.mem_flatMap] at hx
  obtain ⟨kv, _, hkv⟩ := hx
  exact utils.FlattenAll_flat kv.2 x hkv

end dbal

/-! ## Lemmas on `Where` -/

namespace query

/-- On a string column `Where` does not call itself. -/
theorem WhereFuel_str (env : Env) (n : Nat) (b : Builder) (col : String) (args : List Value) :
    Builder.WhereFuel env (n + 1) b (.str col) args =
      Builder.WhereFuel env 1 b (.str col) args := by
  simp [Builder.WhereFuel, Builder.WhereBody, kindOf, isClosure, isQueryable]

/-- On a raw expression column `Where` does not call itself. -/
theorem WhereFuel_raw (env : Env) (n : Nat) (b : Builder) (sql : String) (args : List Value) :
    Builder.WhereFuel env (n + 1) b (.raw sql) args =
      Builder.WhereFuel env 1 b (.raw sql) args := by
  simp [Builder.WhereFuel, Builder.WhereBody, kindOf, isClosure, isQueryable]

/-- The loop over the tuples calls `self` on string columns only. -/
theorem arrayOfWheresLoop_congr (f g : Builder → Value → List Value → Outcome)
    (h : ∀ qb col args, f qb (.str col) args = g qb (.str col) args)
    (rows : List (List Value)) (qb : Builder) :
    arrayOfWheresLoop f qb rows = arrayOfWheresLoop g qb rows := by
  induction rows generalizing qb with
  | nil => rfl
  | cons args rest ih =>
    simp only [arrayOfWheresLoop]
    by_cases hlen : args.length > 1
    · simp only [hlen, if_true]
      cases h0 : args.getD 0 Value.nil with
      | str col =>
        simp only [kindOf]
        cases hp : wherePrepare (args.drop 1) with
        | error e => rfl
        | ok r =>
          obtain ⟨operator, value, boolean, offset⟩ := r
          simp only [h]
          cases hg : g qb (.str col) [.str operator, value, .str boolean, .int offset] with
          | mk qb2 p => cases p <;> simp [ih]
      | _ => simp [kindOf, ih]
    · simp only [hlen, if_false]
      exact ih qb

/-- Depth two is the whole of `Where`: more depth changes nothing. -/
theorem WhereFuel_two (env : Env) (n : Nat) (b : Builder) (column : Value) (args : List Value) :
    Builder.WhereFuel env (n + 2) b column args = Builder.WhereFuel env 2 b column args := by
  have hstr : ∀ qb col a, Builder.WhereFuel env (n + 1) qb (.str col) a =
      Builder.WhereFuel env 1 qb (.str col) a := fun qb col a => WhereFuel_str env n qb col a
  have hraw : ∀ qb sql a, Builder.WhereFuel env (n + 1) qb (.raw sql) a =
      Builder.WhereFuel env 1 qb (.raw sql) a := fun qb sql a => WhereFuel_raw env n qb sql a
  have harr : ∀ boolean, b.addArrayOfWheres (Builder.WhereFuel env (n + 1)) column boolean =
      b.addArrayOfWheres (Builder.WhereFuel env 1) column boolean := by
    intro boolean
    cases column <;> simp only [Builder.addArrayOfWheres]
    simp only [Builder.whereNested, arrayOfWheresLoop_congr _ _ hstr]
  show Builder.WhereBody env (Builder.WhereFuel env (n + 1)) b column args =
    Builder.WhereBody env (Builder.WhereFuel env 1) b column args
  simp only [Builder.WhereBody, harr, hraw]

/-- A call of `Where` at depth one on a raw expression column is the method itself. -/
theorem Where_raw_eq (env : Env) (b : Builder) (sql : String) (args : List Value) :
    Builder.WhereFuel env 1 b (.raw sql) args = Builder.Where env b (.raw sql) args :=
  (WhereFuel_raw env 1 b sql args).symm

/-- The four arguments of a re-entry are read back as they were passed. -/
theorem wherePrepare_four (op : String) (v : Value) (c : String) (off : Int) :
    wherePrepare [.str op, v, .str c, .int off] = .ok (op, v, c, off) := rfl

/-- The basic clause on a string column: the node is appended, then the first
element of the flattened value is bound. -/
theorem WhereFuel_str_basic (env : Env) (n : Nat) (b : Builder) (col : String)
    (args : List Value) (op : String) (v : Value) (c : String) (off : Int)
    (hp : wherePrepare args = .ok (op, v, c, off)) (hn : utils.IsNil v = false)
    (hc : isClosure v = false) :
    Builder.WhereFuel env (n + 1) b (.str col) args =
      match flattenValue v with
      | .error e => ⟨⟨b.Query.appendWhere (.mk "basic" (.str col) op c v off none)⟩, some e⟩
      | .ok x =>
        ⟨⟨(b.Query.appendWhere (.mk "basic" (.str col) op c v off none)).AddBinding "where" x⟩,
          none⟩ := by
  cases v <;>
    simp_all [Builder.WhereFuel, Builder.WhereBody, kindOf, isClosure, isQueryable, utils.IsNil]

/-- The basic clause on a raw expression column. -/
theorem WhereFuel_raw_basic (env : Env) (n : Nat) (b : Builder) (sql : String)
    (args : List Value) (op : String) (v : Value) (c : String) (off : Int)
    (hp : wherePrepare args = .ok (op, v, c, off)) (hn : utils.IsNil v = false) :
    Builder.WhereFuel env (n + 1) b (.raw sql) args =
      match flattenValue v with
      | .error e => ⟨⟨b.Query.appendWhere (.mk "basic" (.raw sql) op c v off none)⟩, some e⟩
      | .ok x =>
        ⟨⟨(b.Query.appendWhere (.mk "basic" (.raw sql) op c v off none)).AddBinding "where" x⟩,
          none⟩ := by
  cases v <;>
    simp_all [Builder.WhereFuel, Builder.WhereBody, kindOf, isClosure, isQueryable, utils.IsNil]

/-- Whether `flattenValue` returns is whether the flattened value has an element. -/
theorem flattenValue_ok_iff (v : Value) :
    (∃ x, flattenValue v = .ok x) ↔ utils.Flatten v ≠ [] := by
  unfold flattenValue
  cases utils.Flatten v <;> simp

end query

/-! ## Every operation appends, and appends no empty nested group -/

namespace query

theorem AppendsGood.same (b : Builder) (p : Option String) : AppendsGood b ⟨b, p⟩ :=
  ⟨[], by simp, by simp⟩

theorem AppendsGood.of_wheres_eq {b b2 : Builder} {o : Outcome} (h : AppendsGood b2 o)
    (hw : b2.Query.Wheres = b.Query.Wheres) : AppendsGood b o := by
  obtain ⟨extra, h1, h2⟩ := h
  exact ⟨extra, by rw [h1, hw], h2⟩

theorem AppendsGood.one (b : Builder) (q : dbal.Query) (p : Option String) (node : Where)
    (hq : q.Wheres = b.Query.Wheres ++ [node]) (hn : NestedNonEmpty node) :
    AppendsGood b ⟨⟨q⟩, p⟩ :=
  ⟨[node], hq, by simpa using hn⟩

theorem addNestedWhereQuery_appends (b : Builder) (q : dbal.Query) (boolean : String)
    (p : Option String) : AppendsGood b ⟨b.addNestedWhereQuery q boolean, p⟩ := by
  unfold Builder.addNestedWhereQuery
  split
  · rename_i hlen
    refine AppendsGood.one b _ p (.mk "nested" .nil "" boolean .nil 0 (some q)) (by simp) ?_
    intro _
    exact ⟨q, rfl, fun h0 => by simp [h0] at hlen⟩
  · exact AppendsGood.same b p

theorem whereNested_appends (b : Builder) (callback : Builder → Outcome) (boolean : String) :
    AppendsGood b (b.whereNested callback boolean) := by
  unfold Builder.whereNested
  split
  · exact addNestedWhereQuery_appends b _ boolean none
  · exact AppendsGood.same b _

theorem whereSub_appends (b : Builder) (column operator : String) (callback : Builder → Outcome)
    (boolean : String) : AppendsGood b (b.whereSub column operator callback boolean) := by
  unfold Builder.whereSub
  split
  · refine AppendsGood.one b _ none _ rfl ?_
    intro h
    exact absurd h (by simp)
  · exact AppendsGood.same b _

theorem WhereNull_appends (b : Builder) (column : Value) (args : List Value) :
    AppendsGood b (b.WhereNull column args) := by
  unfold Builder.WhereNull
  split
  · exact AppendsGood.same b _
  · refine ⟨_, rfl, ?_⟩
    intro node hnode
    simp only [List.mem_map] at hnode
    obtain ⟨col, _, rfl⟩ := hnode
    intro h
    simp only [Where.Typ_mk] at h
    split at h <;> exact absurd h (by decide)

theorem addArrayOfWheres_appends (self : Builder → Value → List Value → Outcome) (b : Builder)
    (inputColumns : Value) (boolean : String) :
    AppendsGood b (b.addArrayOfWheres self inputColumns boolean) := by
  unfold Builder.addArrayOfWheres
  split
  · exact whereNested_appends b _ boolean
  · exact AppendsGood.same b _

theorem WhereBody_appends (env : Env) (self : Builder → Value → List Value → Outcome)
    (hself : ∀ qb col a, AppendsGood qb (self qb col a)) (b : Builder) (column : Value)
    (args : List Value) : AppendsGood b (Builder.WhereBody env self b column args) := by
  unfold Builder.WhereBody
  dsimp only
  repeat' split
  all_goals first
    | exact AppendsGood.same b _
    | exact addArrayOfWheres_appends self b column _
    | exact whereNested_appends b _ _
    | exact whereSub_appends b _ _ _ _
    | exact WhereNull_appends b column _
    | exact (hself _ _ _).of_wheres_eq (by simp)
    | exact AppendsGood.one b _ _ _ rfl (fun h => absurd h (by simp))

theorem WhereFuel_appends (env : Env) (n : Nat) (b : Builder) (column : Value)
    (args : List Value) : AppendsGood b (Builder.WhereFuel env n b column args) := by
  induction n generalizing b column args with
  | zero => exact AppendsGood.same b _
  | succ k ih => exact WhereBody_appends env _ (fun qb col a => ih qb col a) b column args

/-- A grouping callback reaches `whereNested` when no argument follows it or the
first argument is a connective. -/
theorem Where_closure_nested (env : Env) (b : Builder) (id : Nat) (args : List Value)
    (op : String) (v : Value) (c : String) (off : Int)
    (hp : wherePrepare args = .ok (op, v, c, off))
    (hshape : args = [] ∨ isOperator (args.getD 0 .nil) = true) :
    ∃ boolean, Builder.Where env b (.closure id) args = b.whereNested (env.run id) boolean := by
  have hcond : (args.length == 0 ||
      (decide (args.length ≥ 1) && isOperator (args.getD 0 .nil))) = true := by
    rcases hshape with h | h
    · simp [h]
    · cases args with
      | nil => simp [isOperator] at h
      | cons a rest => simpa using h
  show ∃ boolean, Builder.WhereBody env (Builder.WhereFuel env 1) b (.closure id) args =
    b.whereNested (env.run id) boolean
  unfold Builder.WhereBody
  simp only [kindOf, hp, isClosure, hcond, Bool.and_self, reduceCtorEq, if_true, if_false]
  exact ⟨_, rfl⟩

/-- A sub-query column followed by at least one argument: the sub-query is
compiled at the number of bindings of the parent, its bindings are added to the
parent, and `Where` is entered again on the raw expression with the offset that
counts both. -/
theorem Where_subquery (env : Env) (b : Builder) (column : Value) (q : dbal.Query)
    (args : List Value) (op : String) (v : Value) (c : String) (off : Int)
    (hsub : column = .builder q ∨
      ∃ id, column = .closure id ∧ env.run id b.forSubQuery = ⟨⟨q⟩, none⟩ ∧
        isOperator (args.getD 0 .nil) = false)
    (hargs : args.length ≥ 1)
    (hprep : wherePrepare args = .ok (op, v, c, off)) :
    Builder.Where env b column args =
      Builder.Where env ⟨b.Query.AddBinding "where" (.list (FlattenBindings q.Bindings))⟩
        (.raw ("(" ++ env.CompileSelectOffset q ((FlattenBindings b.Query.Bindings).length : Int)
          ++ ")"))
        [.str op, v, .str c,
          .int (((FlattenBindings b.Query.Bindings).length : Int) +
            ((FlattenBindings q.Bindings).length : Int))] := by
  have hlen : decide (args.length ≥ 1) = true := by simpa using hargs
  have hne : (args.length == 0) = false := by
    cases args with
    | nil => simp at hargs
    | cons a rest => simp
  rw [← Where_raw_eq]
  show Builder.WhereBody env (Builder.WhereFuel env 1) b column args = _
  unfold Builder.WhereBody
  rcases hsub with h | ⟨id, h, hrun, hop⟩
  · subst h
    simp only [kindOf, hprep, isClosure, isQueryable, hlen, Bool.false_and, Bool.and_self,
      reduceCtorEq, if_true, if_false, Builder.createSub, Builder.parseSub,
      Builder.prependDatabaseNameIfCrossDatabaseQuery, Builder.GetBindings, utils.Flatten,
      FlattenAll_FlattenBindings, Bool.false_eq_true]
  · subst h
    simp only [kindOf, hprep, isClosure, isQueryable, hlen, hne, hop, Bool.false_and,
      Bool.and_self, Bool.and_false, Bool.or_false, Bool.or_self, Bool.true_and,
      reduceCtorEq, if_true, if_false, Builder.createSub, hrun, Builder.parseSub,
      Builder.prependDatabaseNameIfCrossDatabaseQuery, Builder.GetBindings, utils.Flatten,
      FlattenAll_FlattenBindings, Bool.false_eq_true]

end query

/-! ## Nested groups -/

namespace query

/-- C4: a grouping callback that adds no clause to the builder it receives leaves
the parent as it was, through `whereNested` and through `Where` called with the
callback as its column (no further argument, or a connective as first argument):
no node and no binding is appended. And `Where` keeps the invariant that every
nested node of the tree has a non-empty child tree, for every column and argument
list. -/
theorem whereNested_empty_is_noop (env : Env) (b : Builder) :
    (∀ (callback : Builder → Outcome) (boolean : String),
        (callback b.forNestedWhere).builder.Query.Wheres = [] →
        (b.whereNested callback boolean).builder = b) ∧
      (∀ (id : Nat) (args : List Value),
        (args = [] ∨ isOperator (args.getD 0 .nil) = true) →
        (env.run id b.forNestedWhere).builder.Query.Wheres = [] →
        (Builder.Where env b (.closure id) args).builder = b) ∧
      (∀ (column : Value) (args : List Value),
        (∀ node ∈ b.Query.Wheres, NestedNonEmpty node) →
        ∀ node ∈ (Builder.Where env b column args).builder.Query.Wheres,
          NestedNonEmpty node) := by
  have hnested : ∀ (callback : Builder → Outcome) (boolean : String),
      (callback b.forNestedWhere).builder.Query.Wheres = [] →
      (b.whereNested callback boolean).builder = b := by
    intro callback boolean hempty
    unfold Builder.whereNested
    cases hcb : callback b.forNestedWhere with
    | mk new p =>
      rw [hcb] at hempty
      cases p with
      | none =>
        have h0 : new.Query.Wheres = [] := hempty
        simp [Builder.addNestedWhereQuery, h0]
      | some e => rfl
  refine ⟨hnested, ?_, ?_⟩
  · intro id args hshape hempty
    cases hp : wherePrepare args with
    | error e =>
      show (Builder.WhereBody env (Builder.WhereFuel env 1) b (.closure id) args).builder = b
      unfold Builder.WhereBody
      simp only [kindOf, hp]
    | ok r =>
      obtain ⟨op, v, c, off⟩ := r
      obtain ⟨boolean, hw⟩ := Where_closure_nested env b id args op v c off hp hshape
      rw [hw]
      exact hnested _ boolean hempty
  · intro column args hinv node hnode
    obtain ⟨extra, h1, h2⟩ := WhereFuel_appends env 2 b column args
    unfold Builder.Where at hnode
    rw [h1, List.mem_append] at hnode
    rcases hnode with h | h
    · exact hinv node h
    · exact h2 node h

/-- C4 at a callback that adds nothing, passed alone and passed with `or`, on a
builder that has a clause and a binding; and the invariant after a grouping call
whose callback adds a clause. -/
theorem whereNested_empty_is_noop_witness :
    (examples.oneBinding.whereNested (examples.env.run 0) "and").builder = examples.oneBinding ∧
      (Builder.Where examples.env examples.oneBinding (.closure 0) [.str "or"]).builder =
        examples.oneBinding ∧
      (∀ node ∈ (Builder.Where examples.env examples.oneBinding (.closure 1)
          []).builder.Query.Wheres, NestedNonEmpty node) :=
  ⟨(whereNested_empty_is_noop examples.env examples.oneBinding).1 (examples.env.run 0) "and" rfl,
    (whereNested_empty_is_noop examples.env examples.oneBinding).2.1 0 [.str "or"]
      (Or.inr rfl) rfl,
    (whereNested_empty_is_noop examples.env examples.oneBinding).2.2 (.closure 1) []
      (by
        intro node hnode h
        have hmem : node ∈ [Where.mk "basic" (.str "id") "=" "and" (.int 7) 1 none] := hnode
        simp only [List.mem_singleton] at hmem
        subst hmem
        exact absurd h (by decide))⟩

end query

/-! ## The clause builder: single value, null clauses, bound values -/

namespace query

/-- C1: for a string column `col` and a value `v` that is neither nil nor a
callback, the single-argument call `Where(col, v)` appends exactly one node to the
clause tree, the basic node with column `col`, value `v`, operator `=` and
connective `and`. The call returns normally exactly when the flattened value has an
element (`flattenValue` indexes element 0 after the node is appended). -/
theorem Where_single_value (env : Env) (b : Builder) (col : String) (v : Value)
    (hnil : utils.IsNil v = false) (hcb : isClosure v = false) :
    (Builder.Where env b (.str col) [v]).builder.Query.Wheres =
        b.Query.Wheres ++ [Where.mk "basic" (.str col) "=" "and" v 1 none] ∧
      ((Builder.Where env b (.str col) [v]).panicked = none ↔ utils.Flatten v ≠ []) := by
  have h := WhereFuel_str_basic env 1 b col [v] "=" v "and" 1 rfl hnil hcb
  unfold Builder.Where
  rw [h]
  unfold flattenValue
  cases utils.Flatten v <;> simp

/-- C1 at `Where("score", 5)` on a builder that already has a clause. -/
theorem Where_single_value_witness :
    (Builder.Where examples.env examples.oneBinding (.str "score") [.int 5]).builder.Query.Wheres =
        examples.oneBinding.Query.Wheres ++
          [Where.mk "basic" (.str "score") "=" "and" (.int 5) 1 none] ∧
      ((Builder.Where examples.env examples.oneBinding (.str "score") [.int 5]).panicked = none ↔
        utils.Flatten (.int 5) ≠ []) :=
  Where_single_value examples.env examples.oneBinding "score" (.int 5) rfl rfl

/-- With no argument or one argument `WhereNull` reads the connective from the
operator slot of `wherePrepare`, which is `=`: every node gets the connective `=`,
whatever connective was passed. -/
theorem WhereNull_short_args (b : Builder) (cols : List String) (c : String) :
    (b.WhereNull (.strs cols) [.str c]).builder.Query.Wheres =
        b.Query.Wheres ++ cols.map (fun col => Where.mk "null" (.str col) "" "=" .nil 0 none) ∧
      (b.WhereNull (.strs cols) []).builder.Query.Wheres =
        b.Query.Wheres ++ cols.map (fun col => Where.mk "null" (.str col) "" "=" .nil 0 none) ∧
      (b.OrWhereNull (.strs cols)).builder.Query.Wheres =
        b.Query.Wheres ++ cols.map (fun col => Where.mk "null" (.str col) "" "=" .nil 0 none) := by
  exact ⟨rfl, rfl, rfl⟩

/-- C2, evaluated: `WhereNull(["a","b"], "or")` on the empty builder appends two
null nodes for `a` then `b`, both with connective `=` and not `or`; so does
`OrWhereNull(["a","b"])`; with the connective omitted the connective is `=` and not
`and`. -/
theorem WhereNull_or_gives_equals_connective :
    (Builder.WhereNull examples.emptyBuilder (.strs ["a", "b"]) [.str "or"]).builder.Query.Wheres =
        [Where.mk "null" (.str "a") "" "=" .nil 0 none,
          Where.mk "null" (.str "b") "" "=" .nil 0 none] ∧
      (Builder.OrWhereNull examples.emptyBuilder (.strs ["a", "b"])).builder.Query.Wheres =
        [Where.mk "null" (.str "a") "" "=" .nil 0 none,
          Where.mk "null" (.str "b") "" "=" .nil 0 none] ∧
      (Builder.WhereNull examples.emptyBuilder (.strs ["a", "b"]) []).builder.Query.Wheres =
        [Where.mk "null" (.str "a") "" "=" .nil 0 none,
          Where.mk "null" (.str "b") "" "=" .nil 0 none] :=
  ⟨rfl, rfl, rfl⟩

/-- C3 fails at `Where("id", "in", [1, 2, 3])` on the empty builder: one value is
bound, the first, not the three elements of the flattened list. -/
theorem Where_list_value_binds_one :
    bindingsAt "where" (Builder.Where examples.baseEnv examples.emptyBuilder (.str "id")
        [.str "in", .list [.int 1, .int 2, .int 3]]).builder.Query.Bindings = [.int 1] ∧
      bindingsAt "where" (Builder.Where examples.baseEnv examples.emptyBuilder (.str "id")
        [.str "in", .list [.int 1, .int 2, .int 3]]).builder.Query.Bindings ≠
        bindingsAt "where" examples.emptyBuilder.Query.Bindings ++
          utils.Flatten (.list [.int 1, .int 2, .int 3]) := by
  refine ⟨rfl, fun h => ?_⟩
  exact absurd (congrArg List.length h) (by decide)

/-- C3, amended: for a string column, an operator and a value that is neither nil
nor a callback and whose flattening has a first element `x`, `Where(col, op, v)`
binds `x` alone: the `where` bindings after the call are those before followed by
`x`, and the call returns normally. -/
theorem Where_binds_first_flattened (env : Env) (b : Builder) (col op : String) (v x : Value)
    (rest : List Value) (hnil : utils.IsNil v = false) (hcb : isClosure v = false)
    (hflat : utils.Flatten v = x :: rest) :
    bindingsAt "where" (Builder.Where env b (.str col) [.str op, v]).builder.Query.Bindings =
        bindingsAt "where" b.Query.Bindings ++ [x] ∧
      (Builder.Where env b (.str col) [.str op, v]).panicked = none := by
  have h := WhereFuel_str_basic env 1 b col [.str op, v] op v "and" 1 rfl hnil hcb
  have hx : utils.Flatten x = [x] :=
    utils.Flatten_flat v x (by rw [hflat]; exact List.mem_cons_self _ _)
  unfold Builder.Where
  rw [h]
  simp [flattenValue, hflat, Query.where_AddBinding, hx]

/-- C3 amended, at a list of three values after one prior binding. -/
theorem Where_binds_first_flattened_witness :
    bindingsAt "where" (Builder.Where examples.env examples.oneBinding (.str "id")
        [.str "in", .list [.int 1, .int 2, .int 3]]).builder.Query.Bindings =
        bindingsAt "where" examples.oneBinding.Query.Bindings ++ [.int 1] ∧
      (Builder.Where examples.env examples.oneBinding (.str "id")
        [.str "in", .list [.int 1, .int 2, .int 3]]).panicked = none :=
  Where_binds_first_flattened examples.env examples.oneBinding "id" "in"
    (.list [.int 1, .int 2, .int 3]) (.int 1) [.int 2, .int 3] rfl rfl rfl

/-- C7 fails at `Where("deleted_at", ">", nil)`: the operator `>` is neither `!=`
nor `<>`, and the appended node is a not-null node. -/
theorem Where_nil_greater_is_notnull :
    (Builder.Where examples.baseEnv examples.emptyBuilder (.str "deleted_at")
        [.str ">", .nil]).builder.Query.Wheres =
        [Where.mk "notnull" (.str "deleted_at") "" "and" .nil 0 none] ∧
      ">" ≠ "!=" ∧ ">" ≠ "<>" :=
  ⟨rfl, by decide, by decide⟩

/-- C7, amended: for a string column `col` and an operator `op`,
`Where(col, op, nil)` returns normally having appended exactly one node and no
binding: a null node when `op` is `=`, a not-null node for every other operator,
with column `col` and connective `and`; with a connective `c` passed after the nil
value the node carries `c`. -/
theorem Where_nil_value (env : Env) (b : Builder) (col op c : String) :
    Builder.Where env b (.str col) [.str op, .nil] =
        ⟨⟨.mk b.Query.From
          (b.Query.Wheres ++
            [Where.mk (if op = "=" then "null" else "notnull") (.str col) "" "and" .nil 0 none])
          b.Query.Bindings⟩, none⟩ ∧
      Builder.Where env b (.str col) [.str op, .nil, .str c] =
        ⟨⟨.mk b.Query.From
          (b.Query.Wheres ++
            [Where.mk (if op = "=" then "null" else "notnull") (.str col) "" c .nil 0 none])
          b.Query.Bindings⟩, none⟩ := by
  by_cases h : op = "="
  · subst h
    exact ⟨rfl, rfl⟩
  · have hb : (op != "=") = true := by simpa [bne_iff_ne] using h
    constructor <;>
      simp [Builder.Where, Builder.WhereFuel, Builder.WhereBody, kindOf, wherePrepare, stringOr,
        isClosure, isQueryable, utils.IsNil, Builder.WhereNull, hb, h, bind, Except.bind, pure,
        Except.pure]

end query

/-! ## Sub-queries as the column -/

namespace query

/-- C5 fails at `Where(cb, "or")` with the callback `whereNameKen` after one prior
binding: the callback is followed by one further argument, but that argument is a
connective, so `Where` is not entered again; the appended node is a nested node
with offset 0, and no node carries the offset 1 + 1 = 2 of the claim. It fails too
at `Where(sub, "=", nil)` with a builder sub-query: the call is entered again, but
the nil value appends no basic node to carry the offset. -/
theorem Where_callback_connective_no_offset :
    (Builder.Where examples.env examples.oneBinding (.closure 1)
        [.str "or"]).builder.Query.Wheres.map Where.Typ = ["basic", "nested"] ∧
      (Builder.Where examples.env examples.oneBinding (.closure 1)
        [.str "or"]).builder.Query.Wheres.map Where.Offset = [1, 0] ∧
      ((FlattenBindings examples.oneBinding.Query.Bindings).length : Int) +
          ((FlattenBindings
            (examples.env.run 1 examples.oneBinding.forSubQuery).builder.Query.Bindings).length :
            Int) = 2 ∧
      (Builder.Where examples.env examples.oneBinding
        (.builder (examples.whereScoreVote examples.emptyBuilder).builder.Query)
        [.str "=", .nil]).builder.Query.Wheres = examples.oneBinding.Query.Wheres :=
  ⟨rfl, rfl, rfl, rfl⟩

/-- C5, amended: when `Where` is called with a builder as its column, or with a
grouping callback whose first further argument is not the connective `and` or `or`,
and with at least one further argument that `wherePrepare` normalises, the call is
the re-entered `Where` on the raw compiled sub-query, to which it passes as offset
the number of flattened bindings of the parent before the sub-query plus the number
of flattened bindings of the sub-query; and when the value compared is not nil,
that offset is stored on the basic node the re-entered call appends. -/
theorem Where_subquery_offset (env : Env) (b : Builder) (column : Value) (q : dbal.Query)
    (args : List Value) (op : String) (v : Value) (c : String) (off : Int)
    (hsub : column = .builder q ∨
      ∃ id, column = .closure id ∧ env.run id b.forSubQuery = ⟨⟨q⟩, none⟩ ∧
        isOperator (args.getD 0 .nil) = false)
    (hargs : args.length ≥ 1)
    (hprep : wherePrepare args = .ok (op, v, c, off)) :
    Builder.Where env b column args =
        Builder.Where env ⟨b.Query.AddBinding "where" (.list (FlattenBindings q.Bindings))⟩
          (.raw ("(" ++
            env.CompileSelectOffset q ((FlattenBindings b.Query.Bindings).length : Int) ++ ")"))
          [.str op, v, .str c,
            .int (((FlattenBindings b.Query.Bindings).length : Int) +
              ((FlattenBindings q.Bindings).length : Int))] ∧
      (utils.IsNil v = false →
        (Builder.Where env b column args).builder.Query.Wheres =
          b.Query.Wheres ++
            [Where.mk "basic"
              (.raw ("(" ++
                env.CompileSelectOffset q ((FlattenBindings b.Query.Bindings).length : Int) ++
                ")"))
              op c v
              (((FlattenBindings b.Query.Bindings).length : Int) +
                ((FlattenBindings q.Bindings).length : Int))
              none]) := by
  have h := Where_subquery env b column q args op v c off hsub hargs hprep
  refine ⟨h, fun hnil => ?_⟩
  rw [h]
  unfold Builder.Where
  rw [WhereFuel_raw_basic env 1 _ _ _ op v c _ (wherePrepare_four _ _ _ _) hnil]
  cases flattenValue v <;> simp

/-- C5 amended, at one prior binding in the parent, a callback sub-query that
contributes two bindings and the trailing value 1: the node of the outer value
carries the offset 3. -/
theorem Where_subquery_offset_witness :
    (Builder.Where examples.env examples.oneBinding (.closure 2)
        [.str ">", .int 1]).builder.Query.Wheres =
      examples.oneBinding.Query.Wheres ++
        [Where.mk "basic" (.raw "(select)") ">" "and" (.int 1) 3 none] :=
  (Where_subquery_offset examples.env examples.oneBinding (.closure 2)
    (examples.env.run 2 examples.oneBinding.forSubQuery).builder.Query
    [.str ">", .int 1] ">" (.int 1) "and" 1 (Or.inr ⟨2, rfl, rfl, rfl⟩) (by decide) rfl).2 rfl

/-- C6 fails at `Where(cb, "or", 5)` with the callback `whereNameKen` after one
prior binding: the call is read as a nested group, so the bindings are the prior
one followed by the callback's, without the 5, and the appended node is a nested
node, not a basic node on the compiled sub-query. -/
theorem Where_callback_or_value_is_nested :
    bindingsAt "where" (Builder.Where examples.env examples.oneBinding (.closure 1)
        [.str "or", .int 5]).builder.Query.Bindings = [.int 7, .str "Ken"] ∧
      bindingsAt "where" (Builder.Where examples.env examples.oneBinding (.closure 1)
        [.str "or", .int 5]).builder.Query.Bindings ≠
        bindingsAt "where" examples.oneBinding.Query.Bindings ++
          (examples.env.run 1 examples.oneBinding.forSubQuery).builder.GetBindings ++
          [.int 5] ∧
      (Builder.Where examples.env examples.oneBinding (.closure 1)
        [.str "or", .int 5]).builder.Query.Wheres =
        examples.oneBinding.Query.Wheres ++
          [Where.mk "nested" .nil "" "and" .nil 0
            (some (.mk "users" [Where.mk "basic" (.str "name") "=" "and" (.str "Ken") 1 none]
              [("where", [.str "Ken"])]))] := by
  refine ⟨rfl, fun h => ?_, rfl⟩
  exact absurd (congrArg List.length h) (by decide)

/-- C6, amended: for a sub-query `sub` that is a builder, or a grouping callback
with an operator `op` that is not the word `and` or `or` in any letter case, and a
non-nil scalar value `v`, `Where(sub, op, v)` returns normally and leaves the
`where` bindings equal to those before, followed by the flattened bindings of the
sub-query in their order, followed by `v`; it appends one basic node whose column is
the raw expression `(` compiled sub-query `)`. -/
theorem Where_subquery_bindings (env : Env) (b : Builder) (column : Value) (q : dbal.Query)
    (op : String) (v : Value)
    (hsub : column = .builder q ∨
      ∃ id, column = .closure id ∧ env.run id b.forSubQuery = ⟨⟨q⟩, none⟩ ∧
        isOperator (.str op) = false)
    (hnil : utils.IsNil v = false) (hscalar : utils.Flatten v = [v]) :
    bindingsAt "where" (Builder.Where env b column [.str op, v]).builder.Query.Bindings =
        bindingsAt "where" b.Query.Bindings ++ FlattenBindings q.Bindings ++ [v] ∧
      (Builder.Where env b column [.str op, v]).builder.Query.Wheres =
        b.Query.Wheres ++
          [Where.mk "basic"
            (.raw ("(" ++
              env.CompileSelectOffset q ((FlattenBindings b.Query.Bindings).length : Int) ++ ")"))
            op "and" v
            (((FlattenBindings b.Query.Bindings).length : Int) +
              ((FlattenBindings q.Bindings).length : Int))
            none] ∧
      (Builder.Where env b column [.str op, v]).panicked = none := by
  have h := Where_subquery env b column q [.str op, v] op v "and" 1 hsub (by simp) rfl
  rw [h]
  unfold Builder.Where
  rw [WhereFuel_raw_basic env 1 _ _ _ op v "and" _ (wherePrepare_four _ _ _ _) hnil]
  have hfv : flattenValue v = .ok v := by simp [flattenValue, hscalar]
  simp [hfv, Query.where_AddBinding, hscalar, utils.Flatten, FlattenAll_FlattenBindings]

/-- C6 amended, at a builder sub-query with two bindings after one prior binding. -/
theorem Where_subquery_bindings_witness :
    bindingsAt "where" (Builder.Where examples.env examples.oneBinding
        (.builder (examples.whereScoreVote examples.emptyBuilder).builder.Query)
        [.str "<", .int 9]).builder.Query.Bindings =
        bindingsAt "where" examples.oneBinding.Query.Bindings ++
          FlattenBindings (examples.whereScoreVote examples.emptyBuilder).builder.Query.Bindings ++
          [.int 9] ∧
      (Builder.Where examples.env examples.oneBinding
        (.builder (examples.whereScoreVote examples.emptyBuilder).builder.Query)
        [.str "<", .int 9]).builder.Query.Wheres =
        examples.oneBinding.Query.Wheres ++
          [Where.mk "basic" (.raw "(select)") "<" "and" (.int 9) 3 none] ∧
      (Builder.Where examples.env examples.oneBinding
        (.builder (examples.whereScoreVote examples.emptyBuilder).builder.Query)
        [.str "<", .int 9]).panicked = none :=
  Where_subquery_bindings examples.env examples.oneBinding _
    (examples.whereScoreVote examples.emptyBuilder).builder.Query "<" (.int 9)
    (Or.inl rfl) rfl rfl

/-- C8, evaluated: `Where(cb, 5, "or")` with the callback `whereNameKen` after one
prior binding appends a basic node that compares the compiled sub-query with the
string `or` under the connective `and`; the value bound after the sub-query's
binding is `or`, and 5 occurs nowhere. -/
theorem Where_callback_value_or :
    (Builder.Where examples.env examples.oneBinding (.closure 1)
        [.int 5, .str "or"]).builder.Query.Wheres =
        examples.oneBinding.Query.Wheres ++
          [Where.mk "basic" (.raw "(select)") "=" "and" (.str "or") 2 none] ∧
      bindingsAt "where" (Builder.Where examples.env examples.oneBinding (.closure 1)
        [.int 5, .str "or"]).builder.Query.Bindings = [.int 7, .str "Ken", .str "or"] :=
  ⟨rfl, rfl⟩

end query

/-! ## Column rendering -/

namespace grammar

/-- A type that resolves to `NUMERIC` never takes the precision and scale: the
rule compares with `NUMBERIC` and `DECIMAL` only, so the type text is `NUMERIC`,
with the length suffix when a length is set. -/
theorem columnType_NUMERIC (grammarSQL : Postgres) (column : dbal.Column)
    (ht : grammarSQL.Types column.Typ = some "NUMERIC") :
    grammarSQL.columnType column =
      match column.Length with
      | some n => "NUMERIC(" ++ fmt.d n ++ ")"
      | none => "NUMERIC" := by
  have h1 : strings.Contains "NUMERIC" "TIMESTAMP(%d)" = false := by decide
  have h2 : strings.Contains "NUMERIC" "TIME(%d)" = false := by decide
  unfold Postgres.columnType
  cases hl : column.Length <;> simp [ht, h1, h2, utils.IntVal]

/-- C9, evaluated: the column `price` of semantic type `decimal`, resolved to
`NUMERIC`, with precision 10 and scale 2 is rendered with the type text `NUMERIC`,
not `NUMERIC(10,2)`. -/
theorem SQLAddColumn_decimal_drops_precision :
    examples.postgres.columnType examples.price = "NUMERIC" ∧
      examples.postgres.SQLAddColumn examples.price = "\"price\" NUMERIC  NOT NULL" :=
  ⟨by decide, by decide⟩

/-- An auto-increment column whose base type maps to `BIGINT` and that has no
length is rendered as `BIGSERIAL`, and the text is the same whatever the
nullability and the default value are: both clauses are empty. -/
theorem SQLAddColumn_bigint_no_length (grammarSQL : Postgres) (column : dbal.Column)
    (extra : String) (ht : grammarSQL.Types column.Typ = some "BIGINT")
    (hl : column.Length = none) (he : column.Extra = some extra) (hne : extra ≠ "") :
    grammarSQL.columnTypeFinal column = "BIGSERIAL" ∧
      grammarSQL.SQLAddColumn column =
        strings.Trim (grammarSQL.ID column.Name ++ " " ++ "BIGSERIAL" ++ " " ++ "" ++ " " ++ "" ++
          " " ++ "" ++ " " ++ "" ++ " " ++
          (if utils.StringVal column.Collation != "" then
            "COLLATE " ++ utils.StringVal column.Collation
          else "")) " " := by
  have h1 : strings.Contains "BIGINT" "TIMESTAMP(%d)" = false := by decide
  have h2 : strings.Contains "BIGINT" "TIME(%d)" = false := by decide
  have hty : grammarSQL.columnType column = "BIGINT" := by
    unfold Postgres.columnType
    simp [ht, hl, h1, h2]
  have hfin : grammarSQL.columnTypeFinal column = "BIGSERIAL" := by
    unfold Postgres.columnTypeFinal
    simp [hty, he, utils.StringVal, hne]
  refine ⟨hfin, ?_⟩
  unfold Postgres.SQLAddColumn
  simp [hfin, he, utils.StringVal, hne]

/-- An auto-increment column whose base type maps to `BIGINT` and that has a length
is rendered as `SERIAL`, for every length. -/
theorem columnTypeFinal_bigint_length (grammarSQL : Postgres) (column : dbal.Column)
    (extra : String) (n : Int) (ht : grammarSQL.Types column.Typ = some "BIGINT")
    (hl : column.Length = some n) (he : column.Extra = some extra) (hne : extra ≠ "") :
    grammarSQL.columnTypeFinal column = "SERIAL" := by
  have h1 : strings.Contains "BIGINT" "TIMESTAMP(%d)" = false := by decide
  have h2 : strings.Contains "BIGINT" "TIME(%d)" = false := by decide
  have hty : grammarSQL.columnType column = "BIGINT" ++ "(" ++ fmt.d n ++ ")" := by
    unfold Postgres.columnType
    simp [ht, hl, h1, h2, utils.IntVal]
  have hlen : ("BIGINT" ++ "(" ++ fmt.d n ++ ")").length ≥ 8 := by
    simp only [String.length_append]
    have a : "BIGINT".length = 6 := by decide
    have b : "(".length = 1 := by decide
    have c : ")".length = 1 := by decide
    omega
  have hb : ("BIGINT" ++ "(" ++ fmt.d n ++ ")" == "BIGINT") = false := by
    rw [beq_eq_false_iff_ne]
    intro h
    rw [h] at hlen
    exact absurd hlen (by decide)
  have hs : ("BIGINT" ++ "(" ++ fmt.d n ++ ")" == "SMALLINT") = false := by
    rw [beq_eq_false_iff_ne]
    intro h
    have hp := congrArg (fun t : String => t.toList.head?) h
    simp at hp
  unfold Postgres.columnTypeFinal
  simp only [hty, he, utils.StringVal, Option.getD_some, bne_iff_ne, ne_eq, hne, not_false_eq_true,
    if_true, hb, hs, Bool.false_eq_true, if_false]
  decide

/-- C10, evaluated: the auto-increment column `id` whose base type maps to `BIGINT`
and whose length is 20 is rendered as `SERIAL`, not `BIGSERIAL`: the override
compares the type text after the length suffix was added. -/
theorem SQLAddColumn_bigint_length_is_serial :
    examples.postgres.Types examples.idWithLength.Typ = some "BIGINT" ∧
      examples.postgres.columnType examples.idWithLength = "BIGINT(20)" ∧
      examples.postgres.columnTypeFinal examples.idWithLength = "SERIAL" ∧
      examples.postgres.SQLAddColumn examples.idWithLength = "\"id\" SERIAL" :=
  ⟨by decide, by decide, by decide, by decide⟩

end grammar

/-! ## Lemmas on words, joins and trimming -/

namespace reference

theorem wordsGo_append_space (a b acc : List Char) :
    wordsGo acc (a ++ ' ' :: b) = wordsGo acc a ++ wordsGo [] b := by
  induction a generalizing acc with
  | nil =>
    by_cases h : acc = [] <;> simp [wordsGo, h]
  | cons c a ih =>
    by_cases hc : c = ' '
    · by_cases h : acc = [] <;> simp [wordsGo, hc, h, ih]
    · simp [wordsGo, hc, ih]

theorem wordsGo_dropWhile (l : List Char) :
    wordsGo [] (l.dropWhile (fun c => " ".toList.contains c)) = wordsGo [] l := by
  induction l with
  | nil => rfl
  | cons c l ih =>
    by_cases hc : c = ' '
    · subst hc
      simp only [List.dropWhile_cons]
      simpa [wordsGo] using ih
    · have : (" ".toList.contains c) = false := by simp [hc]
      simp [List.dropWhile_cons, hc]

theorem wordsGo_append_spaces (a s acc : List Char) (hs : ∀ c ∈ s, c = ' ') :
    wordsGo acc (a ++ s) = wordsGo acc a := by
  induction s generalizing a acc with
  | nil => simp
  | cons c s ih =>
    have hc : c = ' ' := hs c (List.mem_cons_self _ _)
    subst hc
    rw [wordsGo_append_space]
    have h0 : wordsGo [] s = [] := by
      have := ih [] [] (fun c hc => hs c (List.mem_cons_of_mem _ hc))
      simpa [wordsGo] using this
    simp [h0]

theorem rdrop_decomp (p : Char → Bool) (l : List Char) :
    l = (l.reverse.dropWhile p).reverse ++ (l.reverse.takeWhile p).reverse := by
  calc l = l.reverse.reverse := (List.reverse_reverse l).symm
    _ = (l.reverse.takeWhile p ++ l.reverse.dropWhile p).reverse := by
      rw [List.takeWhile_append_dropWhile]
    _ = _ := List.reverse_append _ _

theorem words_Trim (s : String) : words (strings.Trim s " ") = words s := by
  unfold words strings.Trim
  show wordsGo [] ((((s.toList.dropWhile _).reverse.dropWhile _).reverse)) = _
  rw [← wordsGo_dropWhile s.toList]
  generalize s.toList.dropWhile (fun c => " ".toList.contains c) = x
  conv_rhs => rw [rdrop_decomp (fun c => " ".toList.contains c) x]
  rw [wordsGo_append_spaces]
  intro c hc
  rw [List.mem_reverse] at hc
  have := List.mem_takeWhile_imp hc
  simpa using this


theorem intercalate_go_append (x acc sep : String) (l : List String) :
    String.intercalate.go (x ++ acc) sep l = x ++ String.intercalate.go acc sep l := by
  induction l generalizing acc with
  | nil => rfl
  | cons a l ih =>
    simp only [String.intercalate.go]
    rw [String.append_assoc, String.append_assoc, ih, String.append_assoc]

theorem Join_cons_cons (a b : String) (rest : List String) (sep : String) :
    strings.Join (a :: b :: rest) sep = a ++ sep ++ strings.Join (b :: rest) sep := by
  show String.intercalate.go a sep (b :: rest) = a ++ sep ++ String.intercalate.go b sep rest
  simp only [String.intercalate.go]
  rw [intercalate_go_append]

theorem words_empty : words "" = [] := rfl

theorem words_append_space (a b : String) : words (a ++ " " ++ b) = words a ++ words b := by
  unfold words
  have : (a ++ " " ++ b).toList = a.toList ++ ' ' :: b.toList := by
    simp [String.toList, String.data_append]
  rw [this, wordsGo_append_space]

theorem words_Join (l : List String) : words (strings.Join l " ") = l.flatMap words := by
  induction l with
  | nil => rfl
  | cons a l ih =>
    cases l with
    | nil => simp [strings.Join, String.intercalate, String.intercalate.go]
    | cons b rest =>
      rw [Join_cons_cons, words_append_space, ih]
      simp

theorem words_joinNonEmpty (l : List String) : words (joinNonEmpty l) = l.flatMap words := by
  unfold joinNonEmpty
  rw [words_Join]
  induction l with
  | nil => rfl
  | cons a l ih =>
    by_cases h : a = ""
    · subst h
      simpa [words_empty] using ih
    · simp [h, ih]

end reference

namespace strings

theorem head?_dropWhile_ne (p : Char → Bool) (l : List Char) (c : Char) (hp : p c = true) :
    (l.dropWhile p).head? ≠ some c := by
  intro h
  have := List.head?_dropWhile_not p l
  rw [h] at this
  simp [hp] at this

theorem Trim_no_space_ends (s : String) :
    (Trim s " ").toList.head? ≠ some ' ' ∧ (Trim s " ").toList.getLast? ≠ some ' ' := by
  have hp : (fun c => " ".toList.contains c) ' ' = true := by decide
  constructor
  · show (((s.toList.dropWhile _).reverse.dropWhile _).reverse).head? ≠ _
    intro h
    have hx := reference.rdrop_decomp (fun c => " ".toList.contains c)
      (s.toList.dropWhile (fun c => " ".toList.contains c))
    have h2 : (s.toList.dropWhile (fun c => " ".toList.contains c)).head? = some ' ' := by
      rw [hx, List.head?_append, h]
      rfl
    exact head?_dropWhile_ne _ _ _ hp h2
  · show (((s.toList.dropWhile _).reverse.dropWhile _).reverse).getLast? ≠ _
    rw [List.getLast?_reverse]
    exact head?_dropWhile_ne _ _ _ hp

end strings

/-! ## Column text assembly, comments and indexes -/

namespace grammar

/-- C19 fails at the column `price`: the empty `unsigned` segment between the type
and the nullability leaves two spaces, so the text is not the non-empty segments
joined by single spaces. -/
theorem SQLAddColumn_price_double_space :
    examples.postgres.SQLAddColumn examples.price = "\"price\" NUMERIC  NOT NULL" ∧
      reference.joinNonEmpty (examples.postgres.columnSegments examples.price) =
        "\"price\" NUMERIC NOT NULL" ∧
      examples.postgres.SQLAddColumn examples.price ≠
        reference.joinNonEmpty (examples.postgres.columnSegments examples.price) := by
  decide

/-- C19, amended: `SQLAddColumn` is the seven segments identifier, type, unsigned,
nullability, default, extra, collation joined by single spaces in that fixed order,
then trimmed of leading and trailing spaces. For every column the text neither
begins nor ends with a space, and its words are, in the same order, the words of
the non-empty segments joined by single spaces; an empty segment is not trimmed
out, its separating space stays. -/
theorem SQLAddColumn_fixed_order (grammarSQL : Postgres) (column : dbal.Column) :
    grammarSQL.SQLAddColumn column =
        strings.Trim (strings.Join (grammarSQL.columnSegments column) " ") " " ∧
      (grammarSQL.SQLAddColumn column).toList.head? ≠ some ' ' ∧
      (grammarSQL.SQLAddColumn column).toList.getLast? ≠ some ' ' ∧
      reference.words (grammarSQL.SQLAddColumn column) =
        reference.words (reference.joinNonEmpty (grammarSQL.columnSegments column)) := by
  have h : grammarSQL.SQLAddColumn column =
      strings.Trim (strings.Join (grammarSQL.columnSegments column) " ") " " := rfl
  refine ⟨h, ?_, ?_, ?_⟩
  · rw [h]
    exact (strings.Trim_no_space_ends _).1
  · rw [h]
    exact (strings.Trim_no_space_ends _).2
  · rw [h, reference.words_Trim, reference.words_Join, reference.words_joinNonEmpty]

/-- A text that begins with a non-empty literal is not empty. -/
theorem append_ne_empty (a b : String) (ha : a.length ≠ 0) : a ++ b ≠ "" := by
  intro h
  have hl := congrArg String.length h
  rw [String.length_append] at hl
  have h0 : "".length = 0 := rfl
  omega

/-- C17: `SQLAddComment` returns the empty text exactly when the comment is empty
and the type is not `ipAddress`; for a column of another type with a non-empty
comment it returns the comment-on-column statement with that comment as value; for
every `ipAddress` column it returns the statement whose value is `T:ipAddress|`
followed by the comment, empty or not. -/
theorem SQLAddComment_cases (grammarSQL : Postgres) (column : dbal.Column) :
    (grammarSQL.SQLAddComment column = "" ↔
        utils.StringVal column.Comment = "" ∧ column.Typ ≠ "ipAddress") ∧
      (column.Typ ≠ "ipAddress" → utils.StringVal column.Comment ≠ "" →
        grammarSQL.SQLAddComment column =
          "COMMENT on column " ++ grammarSQL.ID column.TableName ++ "." ++
            grammarSQL.ID column.Name ++ " is " ++
            grammarSQL.VAL (utils.StringVal column.Comment) ++ ";") ∧
      (column.Typ = "ipAddress" →
        grammarSQL.SQLAddComment column =
          "COMMENT on column " ++ grammarSQL.ID column.TableName ++ "." ++
            grammarSQL.ID column.Name ++ " is " ++
            grammarSQL.VAL ("T:ipAddress|" ++ utils.StringVal column.Comment) ++ ";") := by
  have hne : ∀ x : String, "COMMENT on column " ++ x ≠ "" :=
    fun x => append_ne_empty _ x (by decide)
  have hassoc : ∀ a b c d e : String,
      "COMMENT on column " ++ a ++ b ++ c ++ d ++ e ++ ";" =
        "COMMENT on column " ++ (a ++ b ++ c ++ d ++ e ++ ";") := by
    intro a b c d e
    simp [String.append_assoc]
  unfold Postgres.SQLAddComment
  by_cases hip : column.Typ = "ipAddress"
  · simp [hip, hassoc, hne]
  · by_cases hc : utils.StringVal column.Comment = ""
    · simp [hip, hc]
    · simp [hip, hc, hassoc, hne]

/-- C17 at the `ipAddress` column `ip` with the comment `client`, and at the
column `price`, which has no comment. -/
theorem SQLAddComment_cases_witness :
    examples.postgres.SQLAddComment examples.ip =
        "COMMENT on column " ++ examples.postgres.ID examples.ip.TableName ++ "." ++
          examples.postgres.ID examples.ip.Name ++ " is " ++
          examples.postgres.VAL ("T:ipAddress|" ++ utils.StringVal examples.ip.Comment) ++ ";" ∧
      examples.postgres.SQLAddComment examples.price = "" :=
  ⟨(SQLAddComment_cases examples.postgres examples.ip).2.2 rfl,
    (SQLAddComment_cases examples.postgres examples.price).1.2 ⟨rfl, by decide⟩⟩

/-- C11 fails at the index `pricePrimary`, of kind `primary` over the column
`price` that is not JSON: the text is the fragment `PRIMARY KEY ("price") `, not a
statement of the form `CREATE kind name ON table (columns)`. -/
theorem SQLAddIndex_primary_is_not_create :
    examples.postgres.SQLAddIndex examples.pricePrimary = "PRIMARY KEY (\"price\") " ∧
      examples.postgres.SQLAddIndex examples.pricePrimary ≠
        "CREATE PRIMARY KEY \"orders_price\" ON \"orders\" (\"price\")" := by
  decide

/-- C11, amended: `SQLAddIndex` returns the empty text when a column of the index
has type `json` or `jsonb`. When no column has, and the keyword of the index kind
is not `PRIMARY KEY`, it returns the non-empty statement
`CREATE kind name ON table (columns)` with the quoted columns joined by commas;
when the keyword is `PRIMARY KEY` it returns the fragment `PRIMARY KEY (columns) `
followed by the comment clause. -/
theorem SQLAddIndex_json_skipped (grammarSQL : Postgres) (index : dbal.Index) :
    ((∃ column ∈ index.Columns, column.Typ = "json" ∨ column.Typ = "jsonb") →
        grammarSQL.SQLAddIndex index = "") ∧
      ((∀ column ∈ index.Columns, column.Typ ≠ "json" ∧ column.Typ ≠ "jsonb") →
        (grammarSQL.IndexTypes index.Typ).getD "KEY" ≠ "PRIMARY KEY" →
        grammarSQL.SQLAddIndex index =
            "CREATE " ++ (grammarSQL.IndexTypes index.Typ).getD "KEY" ++ " " ++
              grammarSQL.ID index.Name ++ " ON " ++ grammarSQL.ID index.TableName ++ " (" ++
              strings.Join (index.Columns.map (fun column => grammarSQL.ID column.Name)) "," ++
              ")" ∧
          grammarSQL.SQLAddIndex index ≠ "") ∧
      ((∀ column ∈ index.Columns, column.Typ ≠ "json" ∧ column.Typ ≠ "jsonb") →
        (grammarSQL.IndexTypes index.Typ).getD "KEY" = "PRIMARY KEY" →
        grammarSQL.SQLAddIndex index =
          "PRIMARY KEY (" ++
            strings.Join (index.Columns.map (fun column => grammarSQL.ID column.Name)) "," ++
            ") " ++ (index.Comment.map (fun c => "COMMENT " ++ grammarSQL.VAL c)).getD "") := by
  have hassoc : ∀ a b c d e : String,
      "CREATE " ++ a ++ " " ++ b ++ " ON " ++ c ++ " (" ++ d ++ e =
        "CREATE " ++ (a ++ " " ++ b ++ " ON " ++ c ++ " (" ++ d ++ e) := by
    intro a b c d e
    simp [String.append_assoc]
  refine ⟨?_, ?_, ?_⟩
  · rintro ⟨column, hmem, hj⟩
    have hany : index.Columns.any
        (fun column => column.Typ == "json" || column.Typ == "jsonb") = true := by
      rw [List.any_eq_true]
      exact ⟨column, hmem, by rcases hj with h | h <;> simp [h]⟩
    simp [Postgres.SQLAddIndex, hany]
  · intro hno hkind
    have hany : index.Columns.any
        (fun column => column.Typ == "json" || column.Typ == "jsonb") = false := by
      rw [List.any_eq_false]
      intro column hmem
      simp [(hno column hmem).1, (hno column hmem).2]
    have hform : grammarSQL.SQLAddIndex index =
        "CREATE " ++ (grammarSQL.IndexTypes index.Typ).getD "KEY" ++ " " ++
          grammarSQL.ID index.Name ++ " ON " ++ grammarSQL.ID index.TableName ++ " (" ++
          strings.Join (index.Columns.map (fun column => grammarSQL.ID column.Name)) "," ++
          ")" := by
      simp [Postgres.SQLAddIndex, hany, hkind]
    refine ⟨hform, ?_⟩
    rw [hform, hassoc]
    exact append_ne_empty _ _ (by decide)
  · intro hno hkind
    have hany : index.Columns.any
        (fun column => column.Typ == "json" || column.Typ == "jsonb") = false := by
      rw [List.any_eq_false]
      intro column hmem
      simp [(hno column hmem).1, (hno column hmem).2]
    cases hc : index.Comment <;> simp [Postgres.SQLAddIndex, hany, hkind, hc]

/-- C11 amended, at the unique index over `price` and at the same index definition
over the `json` column `payload`. -/
theorem SQLAddIndex_json_skipped_witness :
    examples.postgres.SQLAddIndex examples.payloadIndex = "" ∧
      examples.postgres.SQLAddIndex examples.priceIndex =
        "CREATE UNIQUE INDEX \"orders_price\" ON \"orders\" (\"price\")" :=
  ⟨(SQLAddIndex_json_skipped examples.postgres examples.payloadIndex).1
      ⟨examples.payload, List.mem_singleton.mpr rfl, Or.inl rfl⟩,
    ((SQLAddIndex_json_skipped examples.postgres examples.priceIndex).2.1
      (by
        intro column hmem
        have hc : column = examples.price := List.mem_singleton.mp hmem
        subst hc
        exact ⟨by decide, by decide⟩)
      (by decide)).1⟩

end grammar

/-! ## Argument normalisation and sub-query classification -/

namespace query

/-- On argument lists without a nil at an inspected position (the first of two or
more, the third, the fourth of exactly four) `wherePrepare` returns the positional
reference definition. -/
theorem wherePrepare_eq_ref (args : List Value)
    (h0 : args.length ≥ 2 → args.getD 0 .nil ≠ .nil)
    (h2 : args.length ≥ 3 → args.getD 2 .nil ≠ .nil)
    (h3 : args.length = 4 → args.getD 3 .nil ≠ .nil) :
    wherePrepare args = .ok (reference.wherePrepareRef args) := by
  have hs : ∀ (v : Value) (d : String), v ≠ .nil →
      stringOr v d = .ok (reference.stringElse v d) := by
    intro v d hv
    cases v <;> first | exact absurd rfl hv | rfl
  have hi : ∀ (v : Value) (d : Int), v ≠ .nil → intOr v d = .ok (reference.intElse v d) := by
    intro v d hv
    cases v <;> first | exact absurd rfl hv | rfl
  rcases args with _ | ⟨a, _ | ⟨v, _ | ⟨c, _ | ⟨o, _ | ⟨x, rest⟩⟩⟩⟩⟩
  · rfl
  · rfl
  · have ha : a ≠ .nil := h0 (by simp)
    simp [wherePrepare, reference.wherePrepareRef, hs a "=" ha, bind, Except.bind, pure,
      Except.pure]
  · have ha : a ≠ .nil := h0 (by simp)
    have hc : c ≠ .nil := h2 (by simp)
    simp [wherePrepare, reference.wherePrepareRef, hs a "=" ha, hs c "and" hc, bind, Except.bind,
      pure, Except.pure]
  · have ha : a ≠ .nil := h0 (by simp)
    have hc : c ≠ .nil := h2 (by simp)
    have ho : o ≠ .nil := h3 (by simp)
    simp [wherePrepare, reference.wherePrepareRef, hs a "=" ha, hs c "and" hc, hi o 1 ho, bind,
      Except.bind, pure, Except.pure]
  · have ha : a ≠ .nil := h0 (by simp)
    have hc : c ≠ .nil := h2 (by simp)
    simp [wherePrepare, reference.wherePrepareRef, hs a "=" ha, hs c "and" hc, bind, Except.bind,
      pure, Except.pure]

/-- C20, evaluated: on the arguments `(nil, 5)` the reference definition gives the
operator `=` (the first argument is not a string), the value 5, `and` and 1, while
`wherePrepare` panics on `reflect.TypeOf(nil).Kind()`; the same with a nil third
argument and with a nil fourth of four. -/
theorem wherePrepare_nil_panics :
    wherePrepare [.nil, .int 5] = .error nilTypePanic ∧
      reference.wherePrepareRef [.nil, .int 5] = ("=", .int 5, "and", 1) ∧
      wherePrepare [.str ">", .int 5, .nil] = .error nilTypePanic ∧
      reference.wherePrepareRef [.str ">", .int 5, .nil] = (">", .int 5, "and", 1) ∧
      wherePrepare [.str ">", .int 5, .str "or", .nil] = .error nilTypePanic ∧
      reference.wherePrepareRef [.str ">", .int 5, .str "or", .nil] = (">", .int 5, "or", 1) :=
  ⟨rfl, rfl, rfl, rfl, rfl, rfl⟩

/-- C12: `parseSub` fails with the error "a subquery must be a query builder
instance, a Closure, or a string" exactly when its argument is neither a builder, a
raw expression nor a string; a string or a raw expression comes back unchanged with
no binding and offset 0; a builder is compiled; and `createSub` hands every
argument to `parseSub`, a callback after running it on a sub-query builder and
taking the builder it leaves. -/
theorem parseSub_classification (env : Env) (b : Builder) :
    (∀ subquery : Value,
        b.parseSub env subquery =
            .error "a subquery must be a query builder instance, a Closure, or a string" ↔
          ¬ ((∃ q, subquery = .builder q) ∨ (∃ sql, subquery = .raw sql) ∨
            (∃ s, subquery = .str s))) ∧
      (∀ s : String, b.parseSub env (.str s) = .ok (s, [], 0)) ∧
      (∀ sql : String, b.parseSub env (.raw sql) = .ok (sql, [], 0)) ∧
      (∀ q : dbal.Query, ∃ r, b.parseSub env (.builder q) = .ok r) ∧
      (∀ (id : Nat) (qb : Builder), env.run id b.forSubQuery = ⟨qb, none⟩ →
        b.createSub env (.closure id) = b.parseSub env (.builder qb.Query)) ∧
      (∀ subquery : Value, isClosure subquery = false →
        b.createSub env subquery = b.parseSub env subquery) := by
  refine ⟨?_, fun _ => rfl, fun _ => rfl, fun _ => ⟨_, rfl⟩, ?_, ?_⟩
  · intro subquery
    cases subquery <;> simp [Builder.parseSub]
  · intro id qb hrun
    simp [Builder.createSub, hrun]
  · intro subquery hc
    cases subquery <;> first | rfl | simp [isClosure] at hc

/-- C12 at the callback `whereNameKen` and at an integer. -/
theorem parseSub_classification_witness :
    examples.emptyBuilder.createSub examples.env (.closure 1) =
        examples.emptyBuilder.parseSub examples.env
          (.builder (examples.env.run 1 examples.emptyBuilder.forSubQuery).builder.Query) ∧
      examples.emptyBuilder.createSub examples.env (.int 5) =
        .error "a subquery must be a query builder instance, a Closure, or a string" :=
  ⟨(parseSub_classification examples.env examples.emptyBuilder).2.2.2.2.1 1 _ rfl,
    ((parseSub_classification examples.env examples.emptyBuilder).2.2.2.2.2 (.int 5) rfl).trans
      (((parseSub_classification examples.env examples.emptyBuilder).1 (.int 5)).2
        (by simp))⟩

end query

/-! ## Bindings only grow -/

namespace query

theorem BindsMore.unchanged (b : Builder) (p : Option String) : BindsMore b ⟨b, p⟩ :=
  ⟨[], by simp, by simp⟩

theorem BindsMore.of_bindings_eq (b : Builder) (q : dbal.Query) (p : Option String)
    (hq : q.Bindings = b.Query.Bindings) : BindsMore b ⟨⟨q⟩, p⟩ :=
  ⟨[], by simp [hq], by simp⟩

theorem BindsMore.add (b : Builder) (q : dbal.Query) (v : Value) (p : Option String)
    (hq : q.Bindings = b.Query.Bindings) : BindsMore b ⟨⟨q.AddBinding "where" v⟩, p⟩ :=
  ⟨utils.Flatten v, by rw [← hq]; exact Query.where_AddBinding q v, utils.Flatten_flat v⟩

theorem BindsMore.trans {b b2 : Builder} {o : Outcome} (p : Option String)
    (h1 : BindsMore b ⟨b2, p⟩) (h2 : BindsMore b2 o) : BindsMore b o := by
  obtain ⟨m1, e1, f1⟩ := h1
  obtain ⟨m2, e2, f2⟩ := h2
  refine ⟨m1 ++ m2, ?_, ?_⟩
  · rw [e2]
    simp only at e1
    rw [e1, List.append_assoc]
  · intro x hx
    rcases List.mem_append.mp hx with h | h
    · exact f1 x h
    · exact f2 x h

theorem addNestedWhereQuery_binds (b : Builder) (q : dbal.Query) (boolean : String)
    (p : Option String) : BindsMore b ⟨b.addNestedWhereQuery q boolean, p⟩ := by
  unfold Builder.addNestedWhereQuery
  split
  · exact BindsMore.add b _ _ p rfl
  · exact BindsMore.unchanged b p

theorem whereNested_binds (b : Builder) (callback : Builder → Outcome) (boolean : String) :
    BindsMore b (b.whereNested callback boolean) := by
  unfold Builder.whereNested
  split
  · exact addNestedWhereQuery_binds b _ boolean none
  · exact BindsMore.unchanged b _

theorem whereSub_binds (b : Builder) (column operator : String) (callback : Builder → Outcome)
    (boolean : String) : BindsMore b (b.whereSub column operator callback boolean) := by
  unfold Builder.whereSub
  split
  · exact BindsMore.add b _ _ none rfl
  · exact BindsMore.unchanged b _

theorem WhereNull_binds (b : Builder) (column : Value) (args : List Value) :
    BindsMore b (b.WhereNull column args) := by
  unfold Builder.WhereNull
  split
  · exact BindsMore.unchanged b _
  · exact BindsMore.of_bindings_eq b _ none rfl

theorem addArrayOfWheres_binds (self : Builder → Value → List Value → Outcome) (b : Builder)
    (inputColumns : Value) (boolean : String) :
    BindsMore b (b.addArrayOfWheres self inputColumns boolean) := by
  unfold Builder.addArrayOfWheres
  split
  · exact whereNested_binds b _ boolean
  · exact BindsMore.unchanged b _

theorem WhereBody_binds (env : Env) (self : Builder → Value → List Value → Outcome)
    (hself : ∀ qb col a, BindsMore qb (self qb col a)) (b : Builder) (column : Value)
    (args : List Value) : BindsMore b (Builder.WhereBody env self b column args) := by
  unfold Builder.WhereBody
  dsimp only
  repeat' split
  all_goals first
    | exact BindsMore.unchanged b _
    | exact addArrayOfWheres_binds self b column _
    | exact whereNested_binds b _ _
    | exact whereSub_binds b _ _ _ _
    | exact WhereNull_binds b column _
    | exact BindsMore.trans none (BindsMore.add b b.Query _ none rfl) (hself _ _ _)
    | exact BindsMore.of_bindings_eq b _ _ rfl
    | exact BindsMore.add b _ _ _ rfl

theorem WhereFuel_binds (env : Env) (n : Nat) (b : Builder) (column : Value)
    (args : List Value) : BindsMore b (Builder.WhereFuel env n b column args) := by
  induction n generalizing b column args with
  | zero => exact BindsMore.unchanged b _
  | succ k ih => exact WhereBody_binds env _ (fun qb col a => ih qb col a) b column args

theorem OnlyAppends.of (b : Builder) (o : Outcome) (hw : AppendsGood b o) (hb : BindsMore b o) :
    OnlyAppends b o := by
  obtain ⟨extra, e1, _⟩ := hw
  obtain ⟨more, e2, _⟩ := hb
  exact ⟨⟨extra, e1.symm⟩, ⟨more, e2.symm⟩⟩

/-- C18: every operation of the clause builder only appends. For `Where` with any
column and any arguments, `WhereNull`, `OrWhereNull`, `OrWhereNotNull`,
`whereNotNull`, `whereNested` and `whereSub` with any callback, the clause list
before the call is a prefix of the clause list after it, and the `where` bindings
before the call are a prefix of the `where` bindings after it. -/
theorem clause_builder_only_appends (env : Env) (b : Builder) :
    (∀ (column : Value) (args : List Value),
        OnlyAppends b (Builder.Where env b column args)) ∧
      (∀ (column : Value) (args : List Value), OnlyAppends b (b.WhereNull column args)) ∧
      (∀ column : Value, OnlyAppends b (b.OrWhereNull column)) ∧
      (∀ column : Value, OnlyAppends b (b.OrWhereNotNull column)) ∧
      (∀ (column : Value) (args : List Value), OnlyAppends b (b.whereNotNull column args)) ∧
      (∀ (callback : Builder → Outcome) (boolean : String),
        OnlyAppends b (b.whereNested callback boolean)) ∧
      (∀ (column operator : String) (callback : Builder → Outcome) (boolean : String),
        OnlyAppends b (b.whereSub column operator callback boolean)) := by
  refine ⟨?_, ?_, ?_, ?_, ?_, ?_, ?_⟩
  · intro column args
    exact OnlyAppends.of b _ (WhereFuel_appends env 2 b column args)
      (WhereFuel_binds env 2 b column args)
  · intro column args
    exact OnlyAppends.of b _ (WhereNull_appends b column args) (WhereNull_binds b column args)
  · intro column
    exact OnlyAppends.of b _ (WhereNull_appends b column _) (WhereNull_binds b column _)
  · intro column
    exact OnlyAppends.of b _ (WhereNull_appends b column _) (WhereNull_binds b column _)
  · intro column args
    unfold Builder.whereNotNull
    split
    · exact OnlyAppends.of b _ (AppendsGood.same b _) (BindsMore.unchanged b _)
    · exact OnlyAppends.of b _ (WhereNull_appends b column _) (WhereNull_binds b column _)
  · intro callback boolean
    exact OnlyAppends.of b _ (whereNested_appends b callback boolean)
      (whereNested_binds b callback boolean)
  · intro column operator callback boolean
    exact OnlyAppends.of b _ (whereSub_appends b column operator callback boolean)
      (whereSub_binds b column operator callback boolean)

end query

/-! ## The target table is kept -/

namespace query

theorem addNestedWhereQuery_From (b : Builder) (q : dbal.Query) (boolean : String) :
    (b.addNestedWhereQuery q boolean).Query.From = b.Query.From := by
  unfold Builder.addNestedWhereQuery
  split <;> rfl

theorem whereNested_From (b : Builder) (callback : Builder → Outcome) (boolean : String) :
    (b.whereNested callback boolean).builder.Query.From = b.Query.From := by
  unfold Builder.whereNested
  split
  · exact addNestedWhereQuery_From b _ boolean
  · rfl

theorem whereSub_From (b : Builder) (column operator : String) (callback : Builder → Outcome)
    (boolean : String) :
    (b.whereSub column operator callback boolean).builder.Query.From = b.Query.From := by
  unfold Builder.whereSub
  split <;> rfl

theorem WhereNull_From (b : Builder) (column : Value) (args : List Value) :
    (b.WhereNull column args).builder.Query.From = b.Query.From := by
  unfold Builder.WhereNull
  split <;> rfl

theorem addArrayOfWheres_From (self : Builder → Value → List Value → Outcome) (b : Builder)
    (inputColumns : Value) (boolean : String) :
    (b.addArrayOfWheres self inputColumns boolean).builder.Query.From = b.Query.From := by
  unfold Builder.addArrayOfWheres
  split
  · exact whereNested_From b _ boolean
  · rfl

theorem WhereBody_From (env : Env) (self : Builder → Value → List Value → Outcome)
    (hself : ∀ qb col a, (self qb col a).builder.Query.From = qb.Query.From) (b : Builder)
    (column : Value) (args : List Value) :
    (Builder.WhereBody env self b column args).builder.Query.From = b.Query.From := by
  unfold Builder.WhereBody
  dsimp only
  repeat' split
  all_goals first
    | rfl
    | exact addArrayOfWheres_From self b column _
    | exact whereNested_From b _ _
    | exact whereSub_From b _ _ _ _
    | exact WhereNull_From b column _
    | exact (hself _ _ _).trans rfl

/-- `Where` keeps the target table of the builder, whatever the column and the
arguments: a callback made of calls of `Where` keeps the table of the builder it
receives. -/
theorem Where_From (env : Env) (b : Builder) (column : Value) (args : List Value) :
    (Builder.Where env b column args).builder.Query.From = b.Query.From := by
  have h : ∀ (n : Nat) (qb : Builder) (col : Value) (a : List Value),
      (Builder.WhereFuel env n qb col a).builder.Query.From = qb.Query.From := by
    intro n
    induction n with
    | zero => intro qb col a; rfl
    | succ k ih => intro qb col a; exact WhereBody_From env _ ih qb col a
  exact h 2 b column args

end query

/-! ## Sub-selects and nested groups -/

namespace query

/-- A string column compared with a callback is a sub-select. -/
theorem Where_str_closure (env : Env) (b : Builder) (col : String) (args : List Value)
    (op : String) (id : Nat) (c : String) (off : Int)
    (hp : wherePrepare args = .ok (op, .closure id, c, off)) :
    Builder.Where env b (.str col) args = b.whereSub col op (env.run id) c := by
  show Builder.WhereBody env (Builder.WhereFuel env 1) b (.str col) args = _
  unfold Builder.WhereBody
  simp only [kindOf, hp, isClosure, isQueryable, Bool.false_and, reduceCtorEq, if_false,
    Bool.false_eq_true]

/-- C15: for a string column `col`, an operator `op`, a connective `c` and a
grouping callback that returns on the fresh sub-select builder it is run on,
`Where(col, op, cb, c)` returns normally having appended exactly one node, the
`sub` node with `col`, `op`, `c` and the query the callback left, and no basic node;
the `where` bindings of that child query, flattened, are appended in order to the
parent's, which are the child's bindings themselves when these are scalars. -/
theorem Where_sub_select (env : Env) (b : Builder) (col op c : String) (id : Nat)
    (child : Builder) (hrun : env.run id b.forSubQuery = ⟨child, none⟩) :
    b.forSubQuery = ⟨.mk "" [] []⟩ ∧
      (Builder.Where env b (.str col) [.str op, .closure id, .str c]).builder.Query.Wheres =
        b.Query.Wheres ++ [Where.mk "sub" (.str col) op c .nil 0 (some child.Query)] ∧
      bindingsAt "where"
          (Builder.Where env b (.str col) [.str op, .closure id, .str c]).builder.Query.Bindings =
        bindingsAt "where" b.Query.Bindings ++
          utils.FlattenAll (bindingsAt "where" child.Query.Bindings) ∧
      ((∀ x ∈ bindingsAt "where" child.Query.Bindings, utils.Flatten x = [x]) →
        bindingsAt "where"
            (Builder.Where env b (.str col) [.str op, .closure id, .str c]).builder.Query.Bindings =
          bindingsAt "where" b.Query.Bindings ++ bindingsAt "where" child.Query.Bindings) ∧
      (Builder.Where env b (.str col) [.str op, .closure id, .str c]).panicked = none := by
  have h := Where_str_closure env b col [.str op, .closure id, .str c] op id c 1 rfl
  have hb : bindingsAt "where"
      (Builder.Where env b (.str col) [.str op, .closure id, .str c]).builder.Query.Bindings =
      bindingsAt "where" b.Query.Bindings ++
        utils.FlattenAll (bindingsAt "where" child.Query.Bindings) := by
    rw [h]
    simp [Builder.whereSub, hrun, Query.where_AddBinding, utils.Flatten]
  refine ⟨rfl, ?_, hb, ?_, ?_⟩
  · rw [h]
    simp [Builder.whereSub, hrun]
  · intro hflat
    rw [hb, utils.FlattenAll_of_flat _ hflat]
  · rw [h]
    simp [Builder.whereSub, hrun]

/-- C15 at `Where("vote", ">", cb, "or")` with the callback `whereScoreVote` after
one prior binding. -/
theorem Where_sub_select_witness :
    (Builder.Where examples.env examples.oneBinding (.str "vote")
        [.str ">", .closure 2, .str "or"]).builder.Query.Wheres =
        examples.oneBinding.Query.Wheres ++
          [Where.mk "sub" (.str "vote") ">" "or" .nil 0
            (some (examples.env.run 2 examples.oneBinding.forSubQuery).builder.Query)] ∧
      bindingsAt "where" (Builder.Where examples.env examples.oneBinding (.str "vote")
        [.str ">", .closure 2, .str "or"]).builder.Query.Bindings =
        [.int 7, .int 5, .int 10] :=
  ⟨(Where_sub_select examples.env examples.oneBinding "vote" ">" "or" 2
      (examples.env.run 2 examples.oneBinding.forSubQuery).builder rfl).2.1,
    (Where_sub_select examples.env examples.oneBinding "vote" ">" "or" 2
      (examples.env.run 2 examples.oneBinding.forSubQuery).builder rfl).2.2.1⟩

/-- C16: for a grouping callback that returns on the nested builder it is run on,
leaves it at least one clause and keeps its target table, `Where(cb)` appends
exactly one nested node with connective `and`, and `Where(cb, c)` with `c` equal to
`and` or `or` appends exactly one nested node with connective `c`. In both cases
the child query of the node is the query the callback left, its target table is the
parent's, and its `where` bindings, flattened, are appended in order to the
parent's, which are the child's bindings themselves when these are scalars. -/
theorem Where_nested_group (env : Env) (b : Builder) (id : Nat) (child : Builder) (c : String)
    (hrun : env.run id b.forNestedWhere = ⟨child, none⟩)
    (hne : child.Query.Wheres ≠ [])
    (hfrom : child.Query.From = b.forNestedWhere.Query.From)
    (hc : c = "and" ∨ c = "or") :
    (Builder.Where env b (.closure id) []).builder.Query.Wheres =
        b.Query.Wheres ++ [Where.mk "nested" .nil "" "and" .nil 0 (some child.Query)] ∧
      (Builder.Where env b (.closure id) [.str c]).builder.Query.Wheres =
        b.Query.Wheres ++ [Where.mk "nested" .nil "" c .nil 0 (some child.Query)] ∧
      child.Query.From = b.Query.From ∧
      bindingsAt "where" (Builder.Where env b (.closure id) []).builder.Query.Bindings =
        bindingsAt "where" b.Query.Bindings ++
          utils.FlattenAll (bindingsAt "where" child.Query.Bindings) ∧
      bindingsAt "where" (Builder.Where env b (.closure id) [.str c]).builder.Query.Bindings =
        bindingsAt "where" b.Query.Bindings ++
          utils.FlattenAll (bindingsAt "where" child.Query.Bindings) ∧
      ((∀ x ∈ bindingsAt "where" child.Query.Bindings, utils.Flatten x = [x]) →
        utils.FlattenAll (bindingsAt "where" child.Query.Bindings) =
          bindingsAt "where" child.Query.Bindings) := by
  have hlen : child.Query.Wheres.length > 0 := List.length_pos.mpr hne
  have h0 : Builder.Where env b (.closure id) [] = b.whereNested (env.run id) "and" := rfl
  have h1 : Builder.Where env b (.closure id) [.str c] = b.whereNested (env.run id) c := by
    rcases hc with h | h <;> subst h <;> rfl
  have hn : ∀ boolean : String, b.whereNested (env.run id) boolean =
      ⟨⟨(b.Query.appendWhere (.mk "nested" .nil "" boolean .nil 0 (some child.Query))).AddBinding
        "where" (.list (bindingsAt "where" child.Query.Bindings))⟩, none⟩ := by
    intro boolean
    simp [Builder.whereNested, hrun, Builder.addNestedWhereQuery, hlen]
  refine ⟨?_, ?_, ?_, ?_, ?_, ?_⟩
  · rw [h0, hn]
    simp
  · rw [h1, hn]
    simp
  · rw [hfrom]
    rfl
  · rw [h0, hn]
    simp [Query.where_AddBinding, utils.Flatten]
  · rw [h1, hn]
    simp [Query.where_AddBinding, utils.Flatten]
  · exact utils.FlattenAll_of_flat _

/-- C16 at the callback `whereNameKen`, passed alone and passed with `or`, after
one prior binding. -/
theorem Where_nested_group_witness :
    (Builder.Where examples.env examples.oneBinding (.closure 1) []).builder.Query.Wheres =
        examples.oneBinding.Query.Wheres ++
          [Where.mk "nested" .nil "" "and" .nil 0
            (some (examples.env.run 1 examples.oneBinding.forNestedWhere).builder.Query)] ∧
      (Builder.Where examples.env examples.oneBinding (.closure 1)
        [.str "or"]).builder.Query.Wheres =
        examples.oneBinding.Query.Wheres ++
          [Where.mk "nested" .nil "" "or" .nil 0
            (some (examples.env.run 1 examples.oneBinding.forNestedWhere).builder.Query)] ∧
      (examples.env.run 1 examples.oneBinding.forNestedWhere).builder.Query.From =
        examples.oneBinding.Query.From :=
  ⟨(Where_nested_group examples.env examples.oneBinding 1
      (examples.env.run 1 examples.oneBinding.forNestedWhere).builder "or" rfl
      (by
        intro h
        exact absurd (congrArg List.length h) (by decide))
      rfl (Or.inr rfl)).1,
    (Where_nested_group examples.env examples.oneBinding 1
      (examples.env.run 1 examples.oneBinding.forNestedWhere).builder "or" rfl
      (by
        intro h
        exact absurd (congrArg List.length h) (by decide))
      rfl (Or.inr rfl)).2.1,
    (Where_nested_group examples.env examples.oneBinding 1
      (examples.env.run 1 examples.oneBinding.forNestedWhere).builder "or" rfl
      (by
        intro h
        exact absurd (congrArg List.length h) (by decide))
      rfl (Or.inr rfl)).2.2.1⟩

end query

/-! ## The array of wheres -/

namespace query

theorem Where_str_prepare_error (env : Env) (qb : Builder) (col : String) (args : List Value)
    (e : String) (hp : wherePrepare args = .error e) :
    Builder.Where env qb (.str col) args = ⟨qb, some e⟩ := by
  show Builder.WhereBody env (Builder.WhereFuel env 1) qb (.str col) args = _
  unfold Builder.WhereBody
  simp only [kindOf, hp]

theorem Where_str_redispatch (env : Env) (qb : Builder) (col : String) (args : List Value)
    (op : String) (v : Value) (c : String) (off : Int)
    (hp : wherePrepare args = .ok (op, v, c, off)) :
    Builder.Where env qb (.str col) [.str op, v, .str c, .int off] =
      Builder.Where env qb (.str col) args := by
  show Builder.WhereBody env (Builder.WhereFuel env 1) qb (.str col)
      [.str op, v, .str c, .int off] =
    Builder.WhereBody env (Builder.WhereFuel env 1) qb (.str col) args
  unfold Builder.WhereBody
  simp only [kindOf, hp, wherePrepare_four, isClosure, isQueryable, Bool.false_and, reduceCtorEq,
    if_false, Bool.false_eq_true]

theorem arrayOfWheresLoop_eq_whereEachTuple (env : Env) (rows : List (List Value))
    (hnil : ∀ t ∈ rows, t.length > 1 → t.getD 0 .nil ≠ .nil) (qb : Builder) :
    arrayOfWheresLoop (Builder.WhereFuel env 1) qb rows =
      reference.whereEachTuple env qb (rows.filter reference.tupleContributes) := by
  induction rows generalizing qb with
  | nil => rfl
  | cons args rest ih =>
    have ih2 := ih (fun t ht => hnil t (List.mem_cons_of_mem _ ht))
    simp only [arrayOfWheresLoop]
    by_cases hlen : args.length > 1
    · simp only [hlen, if_true]
      have h0 := hnil args (List.mem_cons_self _ _) hlen
      cases hd : args.getD 0 Value.nil with
      | nil => exact absurd hd h0
      | str col =>
        have hc : reference.tupleContributes args = true := by
          unfold reference.tupleContributes
          rw [hd]
          simp [hlen]
        simp only [kindOf, List.filter_cons, hc, if_true, reference.whereEachTuple, hd]
        cases hp : wherePrepare (args.drop 1) with
        | error e =>
          rw [Where_str_prepare_error env qb col _ e hp]
        | ok r =>
          obtain ⟨operator, value, boolean, offset⟩ := r
          dsimp only
          rw [← Where_str_redispatch env qb col _ operator value boolean offset hp]
          have hw : Builder.WhereFuel env 1 qb (.str col)
              [.str operator, value, .str boolean, .int offset] =
              Builder.Where env qb (.str col)
                [.str operator, value, .str boolean, .int offset] :=
            (WhereFuel_str env 1 qb col _).symm
          rw [hw]
          cases Builder.Where env qb (.str col)
              [.str operator, value, .str boolean, .int offset] with
          | mk qb2 p =>
            cases p with
            | none => exact ih2 qb2
            | some e => rfl
      | _ =>
        have hc : reference.tupleContributes args = false := by
          unfold reference.tupleContributes
          rw [hd]
          simp
        simp only [kindOf, List.filter_cons, hc]
        exact ih2 qb
    · have hc : reference.tupleContributes args = false := by
        simp [reference.tupleContributes, hlen]
      simp only [hlen, if_false, List.filter_cons, hc]
      exact ih2 qb

/-- An array of wheres is one nested group over the contributing tuples. -/
theorem Where_array_of_wheres (env : Env) (b : Builder) (rows : List (List Value))
    (args : List Value) (op : String) (v : Value) (c : String) (off : Int)
    (hp : wherePrepare args = .ok (op, v, c, off))
    (hnil : ∀ t ∈ rows, t.length > 1 → t.getD 0 .nil ≠ .nil) :
    Builder.Where env b (.rows rows) args =
      b.whereNested
        (fun qb => reference.whereEachTuple env qb (rows.filter reference.tupleContributes)) c := by
  show Builder.WhereBody env (Builder.WhereFuel env 1) b (.rows rows) args = _
  unfold Builder.WhereBody
  simp only [kindOf, hp, if_true, Builder.addArrayOfWheres, Builder.whereNested,
    arrayOfWheresLoop_eq_whereEachTuple env rows hnil]

/-- C14, evaluated: `Where` on an array whose first tuple is `(nil, 5)` and whose
second is `("vote", 10)` panics on `reflect.TypeOf(nil).Kind()` and leaves the
builder without a node, while skipping the first tuple and calling `where` for the
second gives one nested group with connective `and` whose child holds the clause
`vote = 10`. -/
theorem Where_array_nil_first_panics :
    Builder.Where examples.env examples.emptyBuilder (.rows examples.nilFirstRows) [] =
        ⟨examples.emptyBuilder, some nilTypePanic⟩ ∧
      examples.nilFirstRows.filter reference.tupleContributes = [[.str "vote", .int 10]] ∧
      (examples.emptyBuilder.whereNested
        (fun qb => reference.whereEachTuple examples.env qb
          (examples.nilFirstRows.filter reference.tupleContributes)) "and").builder.Query.Wheres =
        [Where.mk "nested" .nil "" "and" .nil 0
          (some (.mk "users" [Where.mk "basic" (.str "vote") "=" "and" (.int 10) 1 none]
            [("where", [.int 10])]))] :=
  ⟨rfl, rfl, rfl⟩

end query

/-! ## Bindings follow the basic nodes -/

namespace query

theorem basicNodesOfList_append (a b : List Where) :
    basicNodesOfList (a ++ b) = basicNodesOfList a ++ basicNodesOfList b := by
  induction a with
  | nil => simp [basicNodesOfList]
  | cons n ns ih => simp [basicNodesOfList, ih]

theorem boundOf_flat (l : List Where) : ∀ x ∈ l.flatMap boundOf, utils.Flatten x = [x] := by
  intro x hx
  simp only [List.mem_flatMap] at hx
  obtain ⟨node, _, hnode⟩ := hx
  exact utils.Flatten_flat node.Value x (List.mem_of_mem_take hnode)

theorem Balanced.empty (table : String) : Balanced (.mk table [] []) := rfl

theorem Balanced.forSubQuery (b : Builder) : Balanced b.forSubQuery.Query := rfl

theorem Balanced.forNestedWhere (b : Builder) : Balanced b.forNestedWhere.Query := rfl

theorem Balanced.basic_error (q : dbal.Query) (col : Value) (op c : String) (v : Value)
    (off : Int) (e : String) (hq : Balanced q) (hv : flattenValue v = .error e) :
    Balanced (q.appendWhere (.mk "basic" col op c v off none)) := by
  have hf : utils.Flatten v = [] := by
    unfold flattenValue at hv
    cases h : utils.Flatten v with
    | nil => rfl
    | cons a l => simp [h] at hv
  unfold Balanced at *
  simp [basicNodesOfList_append, basicNodesOfList, basicNodesOfNode, boundOf, hf, hq, Where.Value]

theorem Balanced.basic_ok (q : dbal.Query) (col : Value) (op c : String) (v x : Value)
    (off : Int) (hq : Balanced q) (hv : flattenValue v = .ok x) :
    Balanced ((q.appendWhere (.mk "basic" col op c v off none)).AddBinding "where" x) := by
  have hf : ∃ rest, utils.Flatten v = x :: rest := by
    unfold flattenValue at hv
    cases h : utils.Flatten v with
    | nil => simp [h] at hv
    | cons a l =>
      simp [h] at hv
      exact ⟨l, by rw [hv]⟩
  obtain ⟨rest, hf⟩ := hf
  have hx : utils.Flatten x = [x] :=
    utils.Flatten_flat v x (by rw [hf]; exact List.mem_cons_self _ _)
  unfold Balanced at *
  rw [Query.where_AddBinding]
  simp [basicNodesOfList_append, basicNodesOfList, basicNodesOfNode, boundOf, hf, hq, hx,
    Where.Value]

theorem Balanced.child (q child : dbal.Query) (t : String) (ht : t = "nested" ∨ t = "sub")
    (col : Value) (op c : String) (hq : Balanced q) (hc : Balanced child) :
    Balanced ((q.appendWhere (.mk t col op c .nil 0 (some child))).AddBinding "where"
      (.list (bindingsAt "where" child.Bindings))) := by
  have htb : t ≠ "basic" := by rcases ht with h | h <;> subst h <;> decide
  have hch : basicNodesOfQuery child = basicNodesOfList child.Wheres := by
    cases child; rfl
  unfold Balanced at *
  rw [Query.where_AddBinding]
  have hflat := utils.FlattenAll_of_flat _ (boundOf_flat (basicNodesOfList child.Wheres))
  simp [basicNodesOfList_append, basicNodesOfList, basicNodesOfNode, basicNodesOfChild, htb, ht,
    hq, hc, utils.Flatten, hflat, hch]

theorem basicNodesOfList_null (typ boolean : String) (columns : List String)
    (ht : typ ≠ "basic" ∧ typ ≠ "nested" ∧ typ ≠ "sub") :
    basicNodesOfList (columns.map (fun col => Where.mk typ (.str col) "" boolean .nil 0 none)) =
      [] := by
  induction columns with
  | nil => rfl
  | cons a l ih => simp [basicNodesOfList, basicNodesOfNode, ht.1, ht.2.1, ht.2.2, ih]

theorem WhereNull_balanced (b : Builder) (column : Value) (args : List Value)
    (hb : Balanced b.Query) : Balanced (b.WhereNull column args).builder.Query := by
  unfold Builder.WhereNull
  split
  · exact hb
  · unfold Balanced at *
    simp only [Query.Bindings_mk, Query.Wheres_mk, basicNodesOfList_append]
    rw [basicNodesOfList_null]
    · simpa using hb
    · split <;> decide

theorem whereSub_balanced (b : Builder) (column operator : String) (callback : Builder → Outcome)
    (boolean : String) (hb : Balanced b.Query)
    (hcb : Balanced (callback b.forSubQuery).builder.Query) :
    Balanced (b.whereSub column operator callback boolean).builder.Query := by
  unfold Builder.whereSub
  split
  · rename_i new heq
    rw [heq] at hcb
    exact Balanced.child _ _ "sub" (Or.inr rfl) _ _ _ hb hcb
  · exact hb

theorem whereNested_balanced (b : Builder) (callback : Builder → Outcome)
    (boolean : String) (hb : Balanced b.Query)
    (hcb : Balanced (callback b.forNestedWhere).builder.Query) :
    Balanced (b.whereNested callback boolean).builder.Query := by
  unfold Builder.whereNested
  split
  · rename_i new heq
    rw [heq] at hcb
    show Balanced (b.addNestedWhereQuery new.Query boolean).Query
    unfold Builder.addNestedWhereQuery
    split
    · exact Balanced.child _ _ "nested" (Or.inl rfl) _ _ _ hb hcb
    · exact hb
  · exact hb

theorem WhereFuel_str_balanced (env : Env)
    (hcb : ∀ id qb, Balanced qb.Query → Balanced (env.run id qb).builder.Query)
    (n : Nat) (b : Builder) (col : String) (args : List Value) (hb : Balanced b.Query) :
    Balanced (Builder.WhereFuel env (n + 1) b (.str col) args).builder.Query := by
  show Balanced (Builder.WhereBody env (Builder.WhereFuel env n) b (.str col) args).builder.Query
  unfold Builder.WhereBody
  simp only [kindOf, isClosure, isQueryable, Bool.false_and, reduceCtorEq, if_false,
    Bool.false_eq_true]
  repeat' split
  all_goals first
    | exact hb
    | exact whereSub_balanced b _ _ _ _ hb (hcb _ _ (Balanced.forSubQuery b))
    | exact WhereNull_balanced b _ _ hb
    | (rename_i hv; exact Balanced.basic_error _ _ _ _ _ _ _ hb hv)
    | (rename_i hv; exact Balanced.basic_ok _ _ _ _ _ _ _ hb hv)

theorem arrayOfWheresLoop_balanced (self : Builder → Value → List Value → Outcome)
    (hself : ∀ qb col a, Balanced qb.Query → Balanced (self qb (.str col) a).builder.Query)
    (rows : List (List Value)) (qb : Builder) (hb : Balanced qb.Query) :
    Balanced (arrayOfWheresLoop self qb rows).builder.Query := by
  induction rows generalizing qb with
  | nil => exact hb
  | cons args rest ih =>
    simp only [arrayOfWheresLoop]
    by_cases hlen : args.length > 1
    · simp only [hlen, if_true]
      cases h0 : args.getD 0 Value.nil with
      | str col =>
        simp only [kindOf]
        cases hp : wherePrepare (args.drop 1) with
        | error e => exact hb
        | ok r =>
          obtain ⟨operator, value, boolean, offset⟩ := r
          have hs := hself qb col [.str operator, value, .str boolean, .int offset] hb
          dsimp only
          cases hg : self qb (.str col) [.str operator, value, .str boolean, .int offset] with
          | mk qb2 p =>
            rw [hg] at hs
            cases p with
            | none => exact ih qb2 hs
            | some e => exact hs
      | _ => first | exact hb | exact ih qb hb
    · simp only [hlen, if_false]
      exact ih qb hb

theorem Reachable.balanced (env : Env)
    (hcb : ∀ id qb, Balanced qb.Query → Balanced (env.run id qb).builder.Query)
    (b : Builder) (hr : Reachable env b) : Balanced b.Query := by
  induction hr with
  | empty table => exact Balanced.empty table
  | whereColumn b col args _ ih => exact WhereFuel_str_balanced env hcb 1 b col args ih
  | whereGroup b id args _ hshape ih =>
    cases hp : wherePrepare args with
    | error e =>
      have : Builder.Where env b (.closure id) args = ⟨b, some e⟩ := by
        show Builder.WhereBody env (Builder.WhereFuel env 1) b (.closure id) args = _
        unfold Builder.WhereBody
        simp only [kindOf, hp]
      rw [this]
      exact ih
    | ok r =>
      obtain ⟨op, v, c, off⟩ := r
      obtain ⟨boolean, hw⟩ := Where_closure_nested env b id args op v c off hp hshape
      rw [hw]
      exact whereNested_balanced b _ boolean ih (hcb _ _ (Balanced.forNestedWhere b))
  | whereArray b rows args _ ih =>
    show Balanced
      (Builder.WhereBody env (Builder.WhereFuel env 1) b (.rows rows) args).builder.Query
    unfold Builder.WhereBody
    simp only [kindOf]
    split
    · exact ih
    · simp only [if_true, Builder.addArrayOfWheres]
      exact whereNested_balanced b _ _ ih
        (arrayOfWheresLoop_balanced _
          (fun qb col a h => WhereFuel_str_balanced env hcb 0 qb col a h)
          rows _ (Balanced.forNestedWhere b))

mutual
/-- Every node listed by `basicNodesOfList` is a basic node. -/
theorem basicNodesOfList_basic :
    ∀ (ws : List Where) (node : Where), node ∈ basicNodesOfList ws → node.Typ = "basic"
  | [], node, h => by simp [basicNodesOfList] at h
  | w :: ws, node, h => by
    simp only [basicNodesOfList, List.mem_append] at h
    rcases h with h | h
    · exact basicNodesOfNode_basic w node h
    · exact basicNodesOfList_basic ws node h
/-- Every node listed by `basicNodesOfNode` is a basic node. -/
theorem basicNodesOfNode_basic :
    ∀ (w : Where) (node : Where), node ∈ basicNodesOfNode w → node.Typ = "basic"
  | .mk t col op c v off q, node, h => by
    simp only [basicNodesOfNode] at h
    split at h
    · rename_i ht
      simp only [List.mem_singleton] at h
      subst h
      exact ht
    · split at h
      · exact basicNodesOfChild_basic q node h
      · simp at h
/-- Every node listed by `basicNodesOfChild` is a basic node. -/
theorem basicNodesOfChild_basic :
    ∀ (q : Option dbal.Query) (node : Where), node ∈ basicNodesOfChild q → node.Typ = "basic"
  | none, node, h => by simp [basicNodesOfChild] at h
  | some q, node, h => basicNodesOfQuery_basic q node (by simpa [basicNodesOfChild] using h)
/-- Every node listed by `basicNodesOfQuery` is a basic node. -/
theorem basicNodesOfQuery_basic :
    ∀ (q : dbal.Query) (node : Where), node ∈ basicNodesOfQuery q → node.Typ = "basic"
  | .mk _ ws _, node, h => basicNodesOfList_basic ws node (by simpa [basicNodesOfQuery] using h)
end

/-- Over nodes with scalar values the bound values are the values. -/
theorem flatMap_boundOf_scalar (l : List Where)
    (h : ∀ node ∈ l, utils.Flatten node.Value = [node.Value]) :
    l.flatMap boundOf = l.map Where.Value := by
  induction l with
  | nil => rfl
  | cons a l ih =>
    have ha := h a (List.mem_cons_self _ _)
    have hl := ih (fun node hn => h node (List.mem_cons_of_mem _ hn))
    simp [boundOf, ha, hl]

/-- The callbacks of `examples.baseEnv` keep the binding invariant. -/
theorem baseEnv_balanced (id : Nat) (qb : Builder) (h : Balanced qb.Query) :
    Balanced (examples.baseEnv.run id qb).builder.Query := h

/-- The callbacks of `examples.env` keep the binding invariant. -/
theorem env_balanced (id : Nat) (qb : Builder) (h : Balanced qb.Query) :
    Balanced (examples.env.run id qb).builder.Query := by
  have hstr : ∀ (b : Builder) (col : String) (args : List Value), Balanced b.Query →
      Balanced (Builder.Where examples.baseEnv b (.str col) args).builder.Query :=
    fun b col args hb => WhereFuel_str_balanced examples.baseEnv baseEnv_balanced 1 b col args hb
  rcases id with _ | _ | _ | n
  · exact h
  · exact hstr qb _ _ h
  · show Balanced (examples.whereScoreVote qb).builder.Query
    unfold examples.whereScoreVote
    have h1 := hstr qb "score" [.str ">", .int 5] h
    split
    · rename_i qb2 heq
      rw [heq] at h1
      exact hstr qb2 _ _ h1
    · exact h1
  · exact h

/-- C13: for every builder reached from an empty builder by `Where` with a string
column, by `Where` with a grouping callback as a nested group and by `Where` with
an array of wheres, the callbacks keeping the same invariant on the builder they
receive, the `where` bindings are the values bound by the basic nodes of the tree,
counted through nested and sub children, in the left-to-right order of the nodes.
When the values of these nodes are scalars, the bindings are those values in that
order and their number is the number of basic nodes. -/
theorem bindings_follow_basic_nodes (env : Env)
    (hcb : ∀ id qb, Balanced qb.Query → Balanced (env.run id qb).builder.Query)
    (b : Builder) (hr : Reachable env b) :
    bindingsAt "where" b.Query.Bindings = (basicNodesOfList b.Query.Wheres).flatMap boundOf ∧
      (∀ node ∈ basicNodesOfList b.Query.Wheres, node.Typ = "basic") ∧
      ((∀ node ∈ basicNodesOfList b.Query.Wheres, utils.Flatten node.Value = [node.Value]) →
        bindingsAt "where" b.Query.Bindings =
            (basicNodesOfList b.Query.Wheres).map Where.Value ∧
          (bindingsAt "where" b.Query.Bindings).length =
            (basicNodesOfList b.Query.Wheres).length) := by
  have hb : Balanced b.Query := Reachable.balanced env hcb b hr
  refine ⟨hb, basicNodesOfList_basic _, fun hs => ?_⟩
  have h : bindingsAt "where" b.Query.Bindings =
      (basicNodesOfList b.Query.Wheres).map Where.Value := by
    rw [← flatMap_boundOf_scalar _ hs]
    exact hb
  exact ⟨h, by rw [h, List.length_map]⟩

/-- C13 at the builder `examples.tree`: four bindings for four basic nodes, one at
the top, one in the nested group of the callback and two in the array group. -/
theorem bindings_follow_basic_nodes_witness :
    bindingsAt "where" examples.tree.Query.Bindings =
        (basicNodesOfList examples.tree.Query.Wheres).map Where.Value ∧
      (bindingsAt "where" examples.tree.Query.Bindings).length =
        (basicNodesOfList examples.tree.Query.Wheres).length ∧
      (bindingsAt "where" examples.tree.Query.Bindings).length = 4 :=
  have hone : Reachable examples.env examples.oneBinding :=
    Reachable.whereColumn ⟨.mk "users" [] []⟩ "id" [.int 7] (Reachable.empty "users")
  have htree : Reachable examples.env examples.tree :=
    Reachable.whereArray _ _ _ (Reachable.whereGroup _ 1 [] hone (Or.inl rfl))
  have hs : ∀ node ∈ basicNodesOfList examples.tree.Query.Wheres,
      utils.Flatten node.Value = [node.Value] := by
    intro node hn
    have hn2 : node ∈ [Where.mk "basic" (.str "id") "=" "and" (.int 7) 1 none,
        Where.mk "basic" (.str "name") "=" "and" (.str "Ken") 1 none,
        Where.mk "basic" (.str "score") ">" "and" (.int 5) 1 none,
        Where.mk "basic" (.str "vote") "=" "and" (.int 10) 1 none] := hn
    simp only [List.mem_cons, List.mem_singleton, List.not_mem_nil, or_false] at hn2
    rcases hn2 with h | h | h | h <;> subst h <;> rfl
  ⟨((bindings_follow_basic_nodes examples.env env_balanced examples.tree htree).2.2 hs).1,
    ((bindings_follow_basic_nodes examples.env env_balanced examples.tree htree).2.2 hs).2,
    rfl⟩

end query

/-! ## Normalisation is a fixed point -/

namespace query

/-- C21: when `wherePrepare` returns on the arguments `args`, it returns the same
four results on these four results; therefore, for every string column `col`,
`Where(col, operator, value, connective, offset)` on the four results is the same
call as `Where(col, args...)`, with the same builder after it and the same panic if
any; and the re-dispatch of `addArrayOfWheres` on the one tuple `(col, args...)`
with at least one argument is the direct call `Where(col, args...)`. -/
theorem wherePrepare_fixed_point (env : Env) (b : Builder) (col : String) (args : List Value)
    (op : String) (v : Value) (c : String) (off : Int)
    (hp : wherePrepare args = .ok (op, v, c, off)) :
    wherePrepare [.str op, v, .str c, .int off] = wherePrepare args ∧
      Builder.Where env b (.str col) [.str op, v, .str c, .int off] =
        Builder.Where env b (.str col) args ∧
      (args ≠ [] →
        arrayOfWheresLoop (Builder.Where env) b [.str col :: args] =
          Builder.Where env b (.str col) args) := by
  refine ⟨by rw [hp, wherePrepare_four], Where_str_redispatch env b col args op v c off hp, ?_⟩
  intro hne
  have hlen : (Value.str col :: args).length > 1 := by
    cases args with
    | nil => exact absurd rfl hne
    | cons a rest => simp
  simp only [arrayOfWheresLoop, hlen, if_true, List.getD_cons_zero, kindOf, List.drop_succ_cons,
    List.drop_zero, hp]
  rw [Where_str_redispatch env b col args op v c off hp]
  cases Builder.Where env b (.str col) args with
  | mk qb p => cases p <;> rfl

/-- C21 at `Where("score", ">", 5)` after one prior binding. -/
theorem wherePrepare_fixed_point_witness :
    wherePrepare [.str ">", .int 5, .str "and", .int 1] = wherePrepare [.str ">", .int 5] ∧
      Builder.Where examples.env examples.oneBinding (.str "score")
          [.str ">", .int 5, .str "and", .int 1] =
        Builder.Where examples.env examples.oneBinding (.str "score") [.str ">", .int 5] ∧
      arrayOfWheresLoop (Builder.Where examples.env) examples.oneBinding
          [[.str "score", .str ">", .int 5]] =
        Builder.Where examples.env examples.oneBinding (.str "score") [.str ">", .int 5] :=
  ⟨(wherePrepare_fixed_point examples.env examples.oneBinding "score" [.str ">", .int 5] ">"
      (.int 5) "and" 1 rfl).1,
    (wherePrepare_fixed_point examples.env examples.oneBinding "score" [.str ">", .int 5] ">"
      (.int 5) "and" 1 rfl).2.1,
    (wherePrepare_fixed_point examples.env examples.oneBinding "score" [.str ">", .int 5] ">"
      (.int 5) "and" 1 rfl).2.2 (by simp)⟩

end query

end Xun
